import Mathlib

/-
  Verification development for the esports-discord-bot repository.

  The repository has two source files implementing the same design:
    - src/index.js                      (HTML-scraping variant, "index variant")
    - src/discord_esports_bot_api.js    (HLTV-API variant, "api variant")

  This file gives a shallow embedding of the code relevant to the claims:
  strings are Lean String values, JavaScript string primitives (trim, split,
  toLowerCase, includes, the three regular expressions of index.js) are
  modelled over List Char with the exact backtracking semantics of the
  JS regex engine for those patterns, JS objects used as maps are modelled
  as association lists with insertion-order update semantics, and the
  stateful poll / subscribe / persistence code is modelled as explicit
  state-passing functions that also emit an event trace (commit events,
  delivery-attempt events, per-delivery log events).

  Caveats of the embedding (all irrelevant to the claims' inputs):
  Char.toLower is ASCII-only while JS toLowerCase is full Unicode, and the
  JS whitespace class is modelled by jsWhitespace below.
-/

/-- The whitespace class of JavaScript regular expressions (\s) and of
String.prototype.trim. -/
def jsWhitespace (c : Char) : Bool :=
  decide (c = ' ' ∨ c = '\t' ∨ c = '\n' ∨ c = '\r' ∨ c = '\x0b' ∨ c = '\x0c' ∨
    c = ' ' ∨ c = ' ' ∨ (' ' ≤ c ∧ c ≤ ' ') ∨ c = ' ' ∨
    c = ' ' ∨ c = ' ' ∨ c = ' ' ∨ c = '　' ∨ c = '﻿')

/-- Characters matched by `.` in a JS regex (anything except line terminators). -/
def dotChar (c : Char) : Bool :=
  !decide (c = '\n' ∨ c = '\r' ∨ c = ' ' ∨ c = ' ')

/-- Remove trailing JS whitespace. -/
def dropTrailingWs : List Char → List Char
  | [] => []
  | c :: cs =>
    if (dropTrailingWs cs).isEmpty && jsWhitespace c then [] else c :: dropTrailingWs cs

/-- JS String.prototype.trim on a character list. -/
def jsTrim (l : List Char) : List Char :=
  dropTrailingWs (l.dropWhile jsWhitespace)

/-- Helper of collapseWs: prevWs records whether the previous character was
whitespace (already emitted as a single space). -/
def collapseGo : List Char → Bool → List Char
  | [], _ => []
  | c :: cs, prevWs =>
    if jsWhitespace c then
      if prevWs then collapseGo cs true else ' ' :: collapseGo cs true
    else c :: collapseGo cs false

/-- JS s.replace(/\s+/g, ' '): every maximal whitespace run becomes one space. -/
def collapseWs (l : List Char) : List Char := collapseGo l false

/-- Helper of splitSpace, accumulating the current chunk in reverse. -/
def splitSpaceGo (cur : List Char) : List Char → List (List Char)
  | [] => [cur.reverse]
  | c :: cs => if decide (c = ' ') then cur.reverse :: splitSpaceGo [] cs
               else splitSpaceGo (c :: cur) cs

/-- JS s.split(' '): split on every single space, keeping empty chunks. -/
def splitSpace (l : List Char) : List (List Char) := splitSpaceGo [] l

/-- JS array.join(' '). -/
def joinSpace : List (List Char) → List Char
  | [] => []
  | [x] => x
  | x :: y :: xs => x ++ ' ' :: joinSpace (y :: xs)

/-- Does the first list start with the second one? -/
def startsWith : List Char → List Char → Bool
  | _, [] => true
  | [], _ :: _ => false
  | c :: cs, d :: ds => decide (c = d) && startsWith cs ds

/-- JS hay.includes(needle): contiguous-substring test. -/
def jsIncludes : List Char → List Char → Bool
  | [], ns => startsWith [] ns
  | c :: t, ns => startsWith (c :: t) ns || jsIncludes t ns

/-- String-level wrapper of jsIncludes. -/
def jsIncludesStr (hay needle : String) : Bool := jsIncludes hay.data needle.data

/-- JS array.includes for string lists (strict equality of elements). -/
def listHas (l : List String) (x : String) : Bool := l.any (fun y => decide (y = x))

/-- normalizeTeamName of both source files: String(name).trim().toLowerCase().
(For a string input, `String(name || '')` is the identity.) -/
def normalizeTeamName (name : String) : String :=
  ⟨(jsTrim name.data).map Char.toLower⟩

/- ------------------------------------------------------------------
   Backtracking engine for the three regexes of src/index.js:
     vsRegex   = /(.+?)\s+v(?:s|\.?)\s+(.+?)(?:\s|$)/i
     dashRegex = /(.+?)\s+[-–]\s+(.+?)(?:\s|$)/
     idRegex   = /\/matches\/(\d+)\//
     evtRegex  = /(?:Event|Tournament|Liga|League|Stage):?\s*([^\n\r]+)/i
   Combinators encode the engine's priorities: lazy quantifiers try the
   shortest extension first, greedy ones the longest, alternatives in
   written order, and the whole search tries start positions left to
   right.
   ------------------------------------------------------------------ -/

/-- Greedy \s* followed by continuation k (longest whitespace run tried first). -/
def wsStar (k : List Char → Option α) : List Char → Option α
  | [] => k []
  | c :: cs => if jsWhitespace c then (wsStar k cs <|> k (c :: cs)) else k (c :: cs)

/-- Greedy \s+ followed by continuation k. -/
def wsPlus (k : List Char → Option α) : List Char → Option α
  | [] => none
  | c :: cs => if jsWhitespace c then wsStar k cs else none

/-- Lazy (.+?) followed by continuation k; k receives the group (reversed)
and the rest. Shorter groups are tried first. -/
def dotLazy (k : List Char → List Char → Option α) : List Char → List Char → Option α
  | _, [] => none
  | gRev, c :: cs =>
    if dotChar c then ((k (c :: gRev) cs) <|> dotLazy k (c :: gRev) cs) else none

/-- \s+(.+?)(?:\s|$) — the tail shared by vsRegex and dashRegex after the
separator; returns the second capture group. -/
def tailAfterSep (r : List Char) : Option (List Char) :=
  wsPlus (fun r4 =>
    dotLazy (fun g2Rev rest2 =>
      match rest2 with
      | [] => some g2Rev.reverse
      | c :: _ => if jsWhitespace c then some g2Rev.reverse else none) [] r4) r

/-- (?:s|\.?) then \s+(.+?)(?:\s|$), case-insensitively, in the engine's
alternative order: literal s first, then an optional dot (greedy), then empty. -/
def vsSepTail (r2 : List Char) : Option (List Char) :=
  (match r2 with
   | c2 :: r3 => if decide (c2 = 's') || decide (c2 = 'S') then tailAfterSep r3 else none
   | [] => none)
  <|>
  (match r2 with
   | c2 :: r3 => if decide (c2 = '.') then tailAfterSep r3 else none
   | [] => none)
  <|> tailAfterSep r2

/-- vsRegex matched at the current position; returns both capture groups. -/
def vsAt (l : List Char) : Option (List Char × List Char) :=
  dotLazy (fun g1Rev rest =>
    (wsPlus (fun r1 =>
       match r1 with
       | c :: r2 => if decide (c = 'v') || decide (c = 'V') then vsSepTail r2 else none
       | [] => none) rest).map (fun g2 => (g1Rev.reverse, g2))) [] l

/-- context.match(vsRegex): leftmost match wins. -/
def vsSearch : List Char → Option (List Char × List Char)
  | [] => none
  | c :: cs => vsAt (c :: cs) <|> vsSearch cs

/-- dashRegex matched at the current position. -/
def dashAt (l : List Char) : Option (List Char × List Char) :=
  dotLazy (fun g1Rev rest =>
    (wsPlus (fun r1 =>
       match r1 with
       | c :: r2 => if decide (c = '-') || decide (c = '–') then tailAfterSep r2 else none
       | [] => none) rest).map (fun g2 => (g1Rev.reverse, g2))) [] l

/-- context.match(dashRegex): leftmost match wins. -/
def dashSearch : List Char → Option (List Char × List Char)
  | [] => none
  | c :: cs => dashAt (c :: cs) <|> dashSearch cs

/-- idRegex matched at the current position: literal "/matches/", at least one
digit (greedy), then '/'; returns the digit group. -/
def idAt (l : List Char) : Option (List Char) :=
  if startsWith l ("/matches/".data) then
    let r := l.drop 9
    let ds := r.takeWhile Char.isDigit
    if ds = [] then none
    else
      match r.drop ds.length with
      | '/' :: _ => some ds
      | _ => none
  else none

/-- href.match(idRegex): leftmost match wins. -/
def idSearch : List Char → Option (List Char)
  | [] => none
  | c :: cs => idAt (c :: cs) <|> idSearch cs

/-- Case-insensitive literal keyword match; returns the rest on success. -/
def matchKeyword : List Char → List Char → Option (List Char)
  | [], r => some r
  | _ :: _, [] => none
  | k :: ks, c :: cs =>
    if decide (Char.toLower c = Char.toLower k) then matchKeyword ks cs else none

/-- ([^\n\r]+), greedy, with nothing after it: the maximal run of
non-line-break characters, required to be non-empty. -/
def evtGroup (l : List Char) : Option (List Char) :=
  match l with
  | [] => none
  | c :: _ =>
    if decide (c = '\n') || decide (c = '\r') then none
    else some (l.takeWhile (fun c2 => !(decide (c2 = '\n') || decide (c2 = '\r'))))

/-- :?\s*([^\n\r]+) — the tail of evtRegex after the keyword, with greedy
backtracking on the optional colon and on \s*. -/
def evtTail (r : List Char) : Option (List Char) :=
  match r with
  | ':' :: r2 => (wsStar evtGroup r2) <|> wsStar evtGroup r
  | _ => wsStar evtGroup r

/-- Try the keyword alternatives of evtRegex in written order. -/
def evtKeywordsTry : List (List Char) → List Char → Option (List Char)
  | [], _ => none
  | kw :: kws, l =>
    (match matchKeyword kw l with
     | some r => evtTail r
     | none => none)
    <|> evtKeywordsTry kws l

/-- evtRegex matched at the current position. -/
def evtAt (l : List Char) : Option (List Char) :=
  evtKeywordsTry ["Event".data, "Tournament".data, "Liga".data, "League".data, "Stage".data] l

/-- parentText.match(evtRegex): leftmost match wins. -/
def evtSearch : List Char → Option (List Char)
  | [] => none
  | c :: cs => evtAt (c :: cs) <|> evtSearch cs

/- ------------------------------------------------------------------
   The Extractor (src/index.js extractMatchesFromHtml).
   An Anchor models one <a href*="/matches/"> element as cheerio sees it:
   its href, the text of its closest div, its own text, and the text of
   the parent of its closest div.
   ------------------------------------------------------------------ -/

structure Anchor where
  href : String
  closestDivText : String
  elText : String
  parentText : String
deriving DecidableEq

structure MatchCand where
  id : String
  team1 : String
  team2 : String
  event : String
  link : String
  raw : String
deriving DecidableEq

/-- context.replace(/\s+/g, ' ').trim() of index.js line 46. -/
def contextNorm (s : String) : String := ⟨jsTrim (collapseWs s.data)⟩

/-- The context text of an anchor: closest div text, else the element's own
text, else empty (JS || chain on strings), then collapsed and trimmed. -/
def contextOf (a : Anchor) : String :=
  contextNorm (if a.closestDivText ≠ "" then a.closestDivText
               else if a.elText ≠ "" then a.elText else "")

/-- Lines 48-62 of index.js: try vsRegex, then dashRegex, on the normalized
context; on a match take both trimmed groups, otherwise fall back to the
first 20 characters of the first 6 space-separated chunks as team1 and an
empty team2. -/
def extractTeams (context : String) : String × String :=
  match vsSearch context.data with
  | some (g1, g2) => (⟨jsTrim g1⟩, ⟨jsTrim g2⟩)
  | none =>
    match dashSearch context.data with
    | some (g1, g2) => (⟨jsTrim g1⟩, ⟨jsTrim g2⟩)
    | none =>
      (⟨jsTrim ((joinSpace ((splitSpace context.data).take 6)).take 20)⟩, "")

/-- Lines 64-68 of index.js: heuristic event-name extraction from the
parent text. -/
def eventOf (a : Anchor) : String :=
  match evtSearch a.parentText.data with
  | some g => ⟨jsTrim g⟩
  | none => ""

/-- The id captured from an anchor's href, if any (an empty href is falsy
and skipped, line 38). -/
def anchorId (a : Anchor) : Option String :=
  if a.href = "" then none
  else (idSearch a.href.data).map (fun ds => ⟨ds⟩)

/-- The candidate built from one anchor (index.js lines 44-71). -/
def buildCandidate (a : Anchor) (id : String) : MatchCand :=
  let context := contextOf a
  let ts := extractTeams context
  { id := id, team1 := ts.1, team2 := ts.2, event := eventOf a,
    link := "https://www.hltv.org" ++ a.href, raw := context }

/-- The each-loop of extractMatchesFromHtml with its accumulator `found`:
skip anchors without a captured id, skip ids already in `found`
(found.some(m => m.id === id)), else push the built candidate. -/
def extractGo (found : List MatchCand) : List Anchor → List MatchCand
  | [] => found
  | a :: as =>
    match anchorId a with
    | none => extractGo found as
    | some id =>
      if found.any (fun m => decide (m.id = id)) then extractGo found as
      else extractGo (found ++ [buildCandidate a id]) as

/-- extractMatchesFromHtml of src/index.js, over the anchor list in
document order. -/
def extractMatchesFromHtml (anchors : List Anchor) : List MatchCand :=
  extractGo [] anchors

/-- Keep only the first candidate of each id. -/
def dedupByIdGo (seen : List String) : List MatchCand → List MatchCand
  | [] => []
  | c :: cs =>
    if listHas seen c.id then dedupByIdGo seen cs
    else c :: dedupByIdGo (c.id :: seen) cs

/-- Modelled from the spec: "Candidates are deduplicated within a single
extraction call by source id (first occurrence wins)" — build one candidate
per anchor that yields an id, then keep the first occurrence of each id.
Used as the specification side of the refinement proof for the extractor. -/
def extractFirstOccurrence (anchors : List Anchor) : List MatchCand :=
  dedupByIdGo [] (anchors.filterMap (fun a => (anchorId a).map (fun id => buildCandidate a id)))

/- ------------------------------------------------------------------
   Normalizer/Matcher of src/index.js (getMatchesForTeam's filter).
   ------------------------------------------------------------------ -/

/-- The filter predicate of getMatchesForTeam (index.js lines 82-85):
(m.team1 && normalizeTeamName(m.team1).includes(t)) ||
(m.team2 && normalizeTeamName(m.team2).includes(t)),
with t = normalizeTeamName(teamName); an empty team field is falsy. -/
def matchesIndex (m : MatchCand) (watched : String) : Bool :=
  (decide (m.team1 ≠ "") &&
    jsIncludesStr (normalizeTeamName m.team1) (normalizeTeamName watched)) ||
  (decide (m.team2 ≠ "") &&
    jsIncludesStr (normalizeTeamName m.team2) (normalizeTeamName watched))

/-- Modelled from the spec: "matches(candidate, watched_team) is true iff
the normalized watched-team string is a substring of the normalized team1
or team2 field of the candidate" — with no emptiness guards. Used as the
specification side of the comparison for claim C5. -/
def matchesSpec (m : MatchCand) (watched : String) : Bool :=
  jsIncludesStr (normalizeTeamName m.team1) (normalizeTeamName watched) ||
  jsIncludesStr (normalizeTeamName m.team2) (normalizeTeamName watched)

/-- needle occurs contiguously inside hay. -/
def SubstrOf (needle hay : String) : Prop :=
  ∃ pre post, hay.data = pre ++ needle.data ++ post

/-- getMatchesForTeam of src/index.js: fetch + extract + filter, with any
fetch failure caught and turned into an empty list (lines 77-90). The fetch
outcome is the external collaborator, passed in as an Except value. -/
def getMatchesForTeam (fetch : Except String (List Anchor)) (teamName : String) :
    List MatchCand :=
  match fetch with
  | .error _ => []
  | .ok anchors => (extractMatchesFromHtml anchors).filter (fun m => matchesIndex m teamName)

/- ------------------------------------------------------------------
   The index-variant state machine.
   db = { subscriptions: {team -> [webhook]}, seenMatches: {teamKey -> [id]} }
   modelled as association lists with JS object update semantics (existing
   key updated in place, new key appended). The machine state carries the
   in-memory db and the on-disk db (saveDB copies mem to disk; a process
   restart reloads disk into mem).
   ------------------------------------------------------------------ -/

def alistGet (l : List (String × List String)) (k : String) : Option (List String) :=
  match l with
  | [] => none
  | (k2, v) :: rest => if k2 = k then some v else alistGet rest k

def alistSet (l : List (String × List String)) (k : String) (v : List String) :
    List (String × List String) :=
  match l with
  | [] => [(k, v)]
  | (k2, v2) :: rest => if k2 = k then (k2, v) :: rest else (k2, v2) :: alistSet rest k v

structure IndexDB where
  subscriptions : List (String × List String)
  seenMatches : List (String × List String)
deriving DecidableEq

/-- The seen set of a team key; an unknown key reads as the empty set. -/
def seenIds (db : IndexDB) (k : String) : List String :=
  (alistGet db.seenMatches k).getD []

/-- The in-memory db and the persisted db. -/
structure St where
  mem : IndexDB
  disk : IndexDB
deriving DecidableEq

/-- Observable events of one run: a dedup commit, a delivery attempt to a
webhook for the polled team and match id, and the per-delivery log line. -/
inductive Event where
  | commit (teamKey id : String)
  | attempt (team webhook id : String)
  | logOk (webhook : String)
  | logFail (webhook : String)
deriving DecidableEq

/-- The delivery events of the inner for-of loop over subscriptions
(index.js lines 101-113): one attempt per webhook, then the success or
failure log line depending on the transport outcome. -/
def attemptEvents (team id : String) (deliver : String → Bool) : List String → List Event
  | [] => []
  | w :: ws =>
    Event.attempt team w id ::
    (if deliver w then Event.logOk w else Event.logFail w) ::
    attemptEvents team id deliver ws

/-- The dedup commit of the poll loop: push the id onto the team key's seen
list (the subscriptions map is untouched) and save the db (disk becomes the
new in-memory db). -/
def commitSt (st : St) (teamKey id : String) : St :=
  { mem := { st.mem with
      seenMatches := alistSet st.mem.seenMatches teamKey (seenIds st.mem teamKey ++ [id]) }
    disk := { st.mem with
      seenMatches := alistSet st.mem.seenMatches teamKey (seenIds st.mem teamKey ++ [id]) } }

/-- `if (!db.seenMatches[teamKey]) db.seenMatches[teamKey] = []`: only an
absent entry (undefined, falsy) is initialized; an empty array is truthy. -/
def ensureSeenEntry (db : IndexDB) (teamKey : String) : IndexDB :=
  match alistGet db.seenMatches teamKey with
  | none => { db with seenMatches := alistSet db.seenMatches teamKey [] }
  | some _ => db

/-- The for-of loop over matches in notifyNewMatchesForTeam (lines 96-115):
an unseen id is pushed onto the seen list and saved (commit), then every
subscription of the raw team string gets a delivery attempt whose failure
is caught and only logged. -/
def notifyLoop (teamKey team : String) (deliver : String → Bool) (st : St) :
    List MatchCand → St × List Event
  | [] => (st, [])
  | m :: ms =>
    if listHas (seenIds st.mem teamKey) m.id then
      notifyLoop teamKey team deliver st ms
    else
      ((notifyLoop teamKey team deliver (commitSt st teamKey m.id) ms).1,
       (Event.commit teamKey m.id ::
          attemptEvents team m.id deliver ((alistGet st.mem.subscriptions team).getD [])) ++
        (notifyLoop teamKey team deliver (commitSt st teamKey m.id) ms).2)

/-- notifyNewMatchesForTeam of src/index.js (lines 92-116). The fetch
outcome of this team's HTTP request is passed in; the seen entry for the
team key is initialized to [] when absent (undefined is falsy, [] is not). -/
def notifyNewMatchesForTeam (st : St) (team : String)
    (fetch : Except String (List Anchor)) (deliver : String → Bool) : St × List Event :=
  notifyLoop (normalizeTeamName team) team deliver
    { mem := ensureSeenEntry st.mem (normalizeTeamName team), disk := st.disk }
    (getMatchesForTeam fetch team)

/-- One poll run over an explicit team list (the cron body, lines 119-130;
each team's notify failure is caught, and in this model notify is total). -/
def pollCycleAux (fetchOf : String → Except String (List Anchor))
    (deliver : String → Bool) (st : St) : List String → St × List Event
  | [] => (st, [])
  | t :: ts =>
    ((pollCycleAux fetchOf deliver (notifyNewMatchesForTeam st t (fetchOf t) deliver).1 ts).1,
     (notifyNewMatchesForTeam st t (fetchOf t) deliver).2 ++
       (pollCycleAux fetchOf deliver (notifyNewMatchesForTeam st t (fetchOf t) deliver).1 ts).2)

/-- One scheduled poll cycle: Object.keys(db.subscriptions) in insertion
order, then one notify run per team. -/
def pollCycle (fetchOf : String → Except String (List Anchor))
    (deliver : String → Bool) (st : St) : St × List Event :=
  pollCycleAux fetchOf deliver st (st.mem.subscriptions.map (fun p => p.1))

/-- POST /subscribe of src/index.js (lines 136-143): reject empty fields,
initialize the team's list when absent, push the webhook only when not yet
included, save. -/
def subscribeOp (st : St) (team webhook : String) : St :=
  if team = "" ∨ webhook = "" then st
  else
    let subs0 :=
      match alistGet st.mem.subscriptions team with
      | none => alistSet st.mem.subscriptions team []
      | some _ => st.mem.subscriptions
    let cur := (alistGet subs0 team).getD []
    let subs1 := if listHas cur webhook then subs0 else alistSet subs0 team (cur ++ [webhook])
    let mem1 : IndexDB := { st.mem with subscriptions := subs1 }
    { mem := mem1, disk := mem1 }

/-- POST /unsubscribe of src/index.js (lines 145-151). -/
def unsubscribeOp (st : St) (team webhook : String) : St :=
  if team = "" ∨ webhook = "" then st
  else
    let cur := (alistGet st.mem.subscriptions team).getD []
    let mem1 : IndexDB :=
      { st.mem with
        subscriptions := alistSet st.mem.subscriptions team
          (cur.filter (fun w => decide (w ≠ webhook))) }
    { mem := mem1, disk := mem1 }

/-- The operations that can touch the store over a process lifetime, plus
a process restart (reload of the persisted file, assuming it is intact). -/
inductive Op where
  | subscribe (team webhook : String)
  | unsubscribe (team webhook : String)
  | poll (fetchOf : String → Except String (List Anchor)) (deliver : String → Bool)
  | reload

def stepOp (st : St) : Op → St
  | .subscribe t w => subscribeOp st t w
  | .unsubscribe t w => unsubscribeOp st t w
  | .poll f d => (pollCycle f d st).1
  | .reload => { mem := st.disk, disk := st.disk }

def stepEvents (st : St) : Op → List Event
  | .poll f d => (pollCycle f d st).2
  | _ => []

def runOps (st : St) : List Op → St
  | [] => st
  | op :: ops => runOps (stepOp st op) ops

/-- The new-vs-seen check of the poll loop:
!db.seenMatches[teamKey].includes(id). -/
def isNewCheck (db : IndexDB) (k id : String) : Bool :=
  !(listHas (seenIds db k) id)

/- ------------------------------------------------------------------
   Trace predicates for the ordering claims.
   ------------------------------------------------------------------ -/

/-- Accumulate the (teamKey, id) pairs committed along a trace. -/
def commitsSeen (acc : List (String × String)) : List Event → List (String × String)
  | [] => acc
  | Event.commit k i :: es => commitsSeen ((k, i) :: acc) es
  | _ :: es => commitsSeen acc es

def commitBeforeAttemptGo (acc : List (String × String)) : List Event → Bool
  | [] => true
  | Event.commit k i :: es => commitBeforeAttemptGo ((k, i) :: acc) es
  | Event.attempt t _ i :: es =>
    acc.any (fun p => decide (p = (normalizeTeamName t, i))) && commitBeforeAttemptGo acc es
  | _ :: es => commitBeforeAttemptGo acc es

/-- Every delivery attempt in the trace is preceded by the dedup commit of
its (team key, match id). -/
def commitPrecedesAttempts (es : List Event) : Bool := commitBeforeAttemptGo [] es

def attemptAfterCommitGo (acc : List (String × String)) : List Event → Bool
  | [] => false
  | Event.commit k i :: es => attemptAfterCommitGo ((k, i) :: acc) es
  | Event.attempt t _ i :: es =>
    acc.any (fun p => decide (p = (normalizeTeamName t, i))) || attemptAfterCommitGo acc es
  | _ :: es => attemptAfterCommitGo acc es

/-- The ordering stated by claim C1: the commit of a (team key, match id)
never happens before a delivery attempt for it. -/
def commitNeverPrecedesAttempt (es : List Event) : Bool :=
  !(attemptAfterCommitGo [] es)

def isLogEvent : Event → Bool
  | .logOk _ => true
  | .logFail _ => true
  | _ => false

/- ------------------------------------------------------------------
   The api-variant (src/discord_esports_bot_api.js).
   ------------------------------------------------------------------ -/

structure ApiSub where
  team : String
  webhook : String
  createdAt : String
deriving DecidableEq

structure ApiDB where
  subscriptions : List ApiSub
  seenMatches : List (String × List String)
deriving DecidableEq

/-- One record of HLTV.getMatches(): a numeric id, the optional team
objects (modelled by their names), the event name and the date. -/
structure ApiMatch where
  mid : Nat
  team1 : Option String
  team2 : Option String
  eventName : String
  date : String
deriving DecidableEq

def apiSeenIds (db : ApiDB) (k : String) : List String :=
  (alistGet db.seenMatches k).getD []

/-- findSubscriptionsForTeam (api lines 50-53): all subscriptions whose
normalized team equals the normalized argument. -/
def findSubscriptionsForTeam (db : ApiDB) (team : String) : List ApiSub :=
  db.subscriptions.filter (fun s => decide (normalizeTeamName s.team = normalizeTeamName team))

/-- fetchUpcomingMatches (api lines 70-85): on a fetch error return [];
otherwise keep the matches with both team objects present whose normalized
name contains the normalized team string. -/
def fetchUpcomingMatches (fetch : Except String (List ApiMatch)) (teamName : String) :
    List ApiMatch :=
  match fetch with
  | .error _ => []
  | .ok ms =>
    ms.filter (fun m =>
      match m.team1, m.team2 with
      | some n1, some n2 =>
        jsIncludesStr (normalizeTeamName n1) (normalizeTeamName teamName) ||
        jsIncludesStr (normalizeTeamName n2) (normalizeTeamName teamName)
      | _, _ => false)

/-- The dedup commit of the api poll loop: push the id onto the team key's
seen list (saveDB has no separate disk state in this model, which assumes
no persistence loss). -/
def apiCommit (db : ApiDB) (teamKey id : String) : ApiDB :=
  { db with seenMatches := alistSet db.seenMatches teamKey (apiSeenIds db teamKey ++ [id]) }

/-- The absent-entry initialization of pollTeam (api line 91). -/
def apiEnsureSeenEntry (db : ApiDB) (teamKey : String) : ApiDB :=
  match alistGet db.seenMatches teamKey with
  | none => { db with seenMatches := alistSet db.seenMatches teamKey [] }
  | some _ => db

/-- The for-of loop of pollTeam (api lines 93-108): an unseen stringified id
is pushed and saved, then each matching subscription gets one webhook send
(fire-and-forget, failures swallowed inside sendDiscordWebhook). -/
def apiPollLoop (teamKey team : String) (db : ApiDB) : List ApiMatch → ApiDB × List Event
  | [] => (db, [])
  | m :: ms =>
    if listHas (apiSeenIds db teamKey) (toString m.mid) then apiPollLoop teamKey team db ms
    else
      ((apiPollLoop teamKey team (apiCommit db teamKey (toString m.mid)) ms).1,
       (Event.commit teamKey (toString m.mid) ::
          (findSubscriptionsForTeam db team).map
            (fun s => Event.attempt s.team s.webhook (toString m.mid))) ++
        (apiPollLoop teamKey team (apiCommit db teamKey (toString m.mid)) ms).2)

/-- pollTeam of the api variant (lines 87-109), with the fetch outcome of
HLTV.getMatches passed in. -/
def pollTeam (db : ApiDB) (team : String) (fetch : Except String (List ApiMatch)) :
    ApiDB × List Event :=
  apiPollLoop (normalizeTeamName team) team
    (apiEnsureSeenEntry db (normalizeTeamName team)) (fetchUpcomingMatches fetch team)

/-- Insertion-order deduplication, as Array.from(new Set(...)). -/
def dedupStr (seen : List String) : List String → List String
  | [] => []
  | t :: ts => if listHas seen t then dedupStr seen ts else t :: dedupStr (t :: seen) ts

def runTeams (db : ApiDB) (fetch : Except String (List ApiMatch)) :
    List String → ApiDB × List Event
  | [] => (db, [])
  | t :: ts =>
    ((runTeams (pollTeam db t fetch).1 fetch ts).1,
     (pollTeam db t fetch).2 ++ (runTeams (pollTeam db t fetch).1 fetch ts).2)

/-- One scheduled polling run of the api variant (lines 114-119): the
deduplicated team strings of the subscription list, each polled in turn. -/
def runCycle (db : ApiDB) (fetch : Except String (List ApiMatch)) : ApiDB × List Event :=
  runTeams db fetch (dedupStr [] (db.subscriptions.map (fun s => s.team)))

/-- n consecutive poll cycles over the same upstream content. -/
def runCycles (db : ApiDB) (fetch : Except String (List ApiMatch)) : Nat → ApiDB × List Event
  | 0 => (db, [])
  | n + 1 =>
    ((runCycles (runCycle db fetch).1 fetch n).1,
     (runCycle db fetch).2 ++ (runCycles (runCycle db fetch).1 fetch n).2)

/-- POST /subscribe of the api variant (lines 123-130): push
unconditionally (trimmed team and webhook, plus a timestamp). -/
def apiSubscribe (db : ApiDB) (team webhook createdAt : String) : ApiDB :=
  if team = "" ∨ webhook = "" then db
  else { db with
         subscriptions := db.subscriptions ++
           [{ team := ⟨jsTrim team.data⟩, webhook := ⟨jsTrim webhook.data⟩,
              createdAt := createdAt }] }

/-- Number of delivery attempts in a trace addressed to one webhook for one
(subscription team, match id) pair. -/
def attemptCount (es : List Event) (team w id : String) : Nat :=
  es.countP (fun e => decide (e = Event.attempt team w id))

/-- Two in-memory dbs that agree on the subscription map and on every
team key's seen set (they may differ in whether an empty seen entry is
materialized, which the code never observes). -/
def DBEquiv (m1 m2 : IndexDB) : Prop :=
  m1.subscriptions = m2.subscriptions ∧ ∀ k, seenIds m1 k = seenIds m2 k

/- ------------------------------------------------------------------
   Concrete inputs used by counterexamples and witnesses.
   ------------------------------------------------------------------ -/

/-- An upstream anchor for match 12345 between FURIA and Imperial. -/
def anchorFuria : Anchor :=
  { href := "/matches/12345/furia-vs-imperial"
    closestDivText := "FURIA vs Imperial"
    elText := ""
    parentText := "Event: IEM" }

def dbFuria : IndexDB :=
  { subscriptions := [("FURIA", ["https://hook1"])], seenMatches := [] }

def stFuria : St := { mem := dbFuria, disk := dbFuria }

def fetchFuria : String → Except String (List Anchor) := fun _ => .ok [anchorFuria]

/-- An upstream that is unreachable for every team. -/
def fetchDown : String → Except String (List Anchor) := fun _ => .error "network error"

def deliverAll : String → Bool := fun _ => true

/-- The index db with the same webhook under two raw team spellings. -/
def dbTwoSpellings : IndexDB :=
  { subscriptions := [("FURIA", ["https://hook1"]), ("furia", ["https://hook2"])]
    seenMatches := [] }

def stTwoSpellings : St := { mem := dbTwoSpellings, disk := dbTwoSpellings }

/-- An index db whose seen set already contains match 12345 for furia. -/
def dbSeeded : IndexDB :=
  { subscriptions := [("FURIA", ["https://hook1"])], seenMatches := [("furia", ["12345"])] }

def stSeeded : St := { mem := dbSeeded, disk := dbSeeded }

/-- An api-variant upstream match record for FURIA vs Imperial. -/
def apiMatchFuria : ApiMatch :=
  { mid := 7, team1 := some "FURIA", team2 := some "Imperial",
    eventName := "IEM", date := "2026-01-01" }

/-- The api db after subscribing the same (team, webhook) pair twice. -/
def apiDbDup : ApiDB :=
  apiSubscribe (apiSubscribe { subscriptions := [], seenMatches := [] }
    "FURIA" "https://hook1" "2026-01-01") "FURIA" "https://hook1" "2026-01-02"

/-- The api db with a single subscription. -/
def apiDbSingle : ApiDB :=
  apiSubscribe { subscriptions := [], seenMatches := [] } "FURIA" "https://hook1" "2026-01-01"

/-- The candidate with both team fields empty, used against claim C5. -/
def candEmptyTeams : MatchCand :=
  { id := "1", team1 := "", team2 := "", event := "", link := "", raw := "" }

/- ==================================================================
   Helper lemmas.
   ================================================================== -/

theorem listHas_iff (l : List String) (x : String) : listHas l x = true ↔ x ∈ l := by
  simp only [listHas, List.any_eq_true, decide_eq_true_eq]
  constructor
  · rintro ⟨y, hy, rfl⟩; exact hy
  · intro h; exact ⟨x, h, rfl⟩

theorem listHas_false_iff (l : List String) (x : String) : listHas l x = false ↔ x ∉ l := by
  rw [Bool.eq_false_iff]
  exact not_congr (listHas_iff l x)

theorem stringDataExt (s t : String) (h : s.data = t.data) : s = t := by
  cases s
  cases t
  exact congrArg String.mk h

theorem startsWith_iff : ∀ (h n : List Char), startsWith h n = true ↔ ∃ rest, h = n ++ rest
  | h, [] => by simp [startsWith]
  | [], d :: ds => by simp [startsWith]
  | c :: cs, d :: ds => by
    simp only [startsWith, Bool.and_eq_true, decide_eq_true_eq, startsWith_iff cs ds]
    constructor
    · rintro ⟨rfl, rest, rfl⟩; exact ⟨rest, rfl⟩
    · rintro ⟨rest, heq⟩
      injection heq with h1 h2
      exact ⟨h1, rest, h2⟩

theorem jsIncludes_iff (n : List Char) :
    ∀ (h : List Char), jsIncludes h n = true ↔ ∃ pre post, h = pre ++ n ++ post := by
  intro h
  induction h with
  | nil =>
    simp only [jsIncludes, startsWith_iff]
    constructor
    · rintro ⟨rest, heq⟩; exact ⟨[], rest, heq⟩
    · rintro ⟨pre, post, heq⟩
      cases pre with
      | nil => exact ⟨post, heq⟩
      | cons a t => simp at heq
  | cons c t ih =>
    simp only [jsIncludes, Bool.or_eq_true, startsWith_iff, ih]
    constructor
    · rintro (⟨rest, heq⟩ | ⟨pre, post, heq⟩)
      · exact ⟨[], rest, heq⟩
      · exact ⟨c :: pre, post, by simp [heq]⟩
    · rintro ⟨pre, post, heq⟩
      cases pre with
      | nil => exact Or.inl ⟨post, by simpa using heq⟩
      | cons a pt =>
        right
        injection heq with h1 h2
        exact ⟨pt, post, h2⟩

theorem jsIncludesStr_iff (hay needle : String) :
    jsIncludesStr hay needle = true ↔ SubstrOf needle hay :=
  jsIncludes_iff needle.data hay.data

/- ==================================================================
   Claim C5 — the Normalizer/Matcher characterization.
   ================================================================== -/

/-- C5, counterexample: for the candidate whose two team fields are empty
strings and the watched key "", the normalized watched string IS a substring
of the normalized team1 field ("" is a substring of ""), so the claimed iff
demands `true`, but the code's truthiness guards return `false`. -/
theorem claimC5_counterexample :
    SubstrOf (normalizeTeamName "") (normalizeTeamName candEmptyTeams.team1) ∧
    matchesSpec candEmptyTeams "" = true ∧
    matchesIndex candEmptyTeams "" = false := by
  refine ⟨⟨[], [], rfl⟩, by decide, by decide⟩

/-- C5 (amended): normalize(name) is trim-then-lowercase, and
matches(candidate, watched) is true iff the normalized watched string is a
substring of the normalized team1 field or of the normalized team2 field,
with the extra requirement (enforced by the code's truthiness guards) that
the corresponding raw team field be a non-empty string. -/
theorem claimC5_matches_characterization (name : String) (m : MatchCand) (watched : String) :
    normalizeTeamName name = ⟨(jsTrim name.data).map Char.toLower⟩ ∧
    (matchesIndex m watched = true ↔
      ((m.team1 ≠ "" ∧ SubstrOf (normalizeTeamName watched) (normalizeTeamName m.team1)) ∨
       (m.team2 ≠ "" ∧ SubstrOf (normalizeTeamName watched) (normalizeTeamName m.team2)))) := by
  refine ⟨rfl, ?_⟩
  simp only [matchesIndex, Bool.or_eq_true, Bool.and_eq_true, decide_eq_true_eq,
    jsIncludesStr_iff]

/- ==================================================================
   Claim C4 — the team-pair split of the extractor.
   ================================================================== -/

theorem dropWhile_ws_shape (l : List Char) :
    l.dropWhile jsWhitespace = [] ∨
    ∃ d t, l.dropWhile jsWhitespace = d :: t ∧ jsWhitespace d = false := by
  induction l with
  | nil => exact Or.inl rfl
  | cons c cs ih =>
    by_cases h : jsWhitespace c
    · simpa [List.dropWhile_cons, h] using ih
    · right
      exact ⟨c, cs, by simp [List.dropWhile_cons, h], by simpa using h⟩

theorem dropTrailingWs_head_nonws (c : Char) (cs : List Char) (h : jsWhitespace c = false) :
    dropTrailingWs (c :: cs) = c :: dropTrailingWs cs := by
  simp [dropTrailingWs, h]

theorem jsTrim_shape (l : List Char) :
    jsTrim l = [] ∨ ∃ d t, jsTrim l = d :: t ∧ jsWhitespace d = false := by
  unfold jsTrim
  rcases dropWhile_ws_shape l with h | ⟨d, t, heq, hws⟩
  · rw [h]; exact Or.inl rfl
  · rw [heq, dropTrailingWs_head_nonws d t hws]
    exact Or.inr ⟨d, dropTrailingWs t, rfl, hws⟩

theorem splitSpaceGo_head : ∀ (l : List Char) (cur : List Char),
    ∃ w ws2, splitSpaceGo cur l = (cur.reverse ++ w) :: ws2
  | [], cur => ⟨[], [], by simp [splitSpaceGo]⟩
  | c :: cs, cur => by
    by_cases h : c = ' '
    · exact ⟨[], splitSpaceGo [] cs, by simp [splitSpaceGo, h]⟩
    · rcases splitSpaceGo_head cs (c :: cur) with ⟨w, ws2, heq⟩
      exact ⟨c :: w, ws2, by simp [splitSpaceGo, h, heq]⟩

theorem joinSpace_cons_head (x : List Char) (L : List (List Char)) :
    ∃ z, joinSpace (x :: L) = x ++ z := by
  cases L with
  | nil => exact ⟨[], by simp [joinSpace]⟩
  | cons y ys => exact ⟨' ' :: joinSpace (y :: ys), by simp [joinSpace]⟩

theorem fallback_team1_nonempty (d : Char) (z : List Char) (hw : jsWhitespace d = false) :
    jsTrim ((joinSpace ((splitSpace (d :: z)).take 6)).take 20) ≠ [] := by
  have hd : ¬ (d = ' ') := by
    intro h
    rw [h] at hw
    exact absurd hw (by decide)
  have hsplit : splitSpace (d :: z) = splitSpaceGo [d] z := by
    simp [splitSpace, splitSpaceGo, hd]
  rcases splitSpaceGo_head z [d] with ⟨w, ws2, heq⟩
  rw [hsplit, heq]
  simp only [List.reverse_cons, List.reverse_nil, List.nil_append, List.singleton_append]
  rw [show (6 : Nat) = 5 + 1 from rfl, List.take_succ_cons]
  rcases joinSpace_cons_head (d :: w) (ws2.take 5) with ⟨z2, hj⟩
  rw [hj]
  rw [List.cons_append, show (20 : Nat) = 19 + 1 from rfl, List.take_succ_cons]
  unfold jsTrim
  rw [List.dropWhile_cons, hw]
  simp only [Bool.false_eq_true, if_false]
  rw [dropTrailingWs_head_nonws d _ hw]
  exact List.cons_ne_nil d _

/-- C4, counterexample: the lazy second group of both patterns stops at the
first whitespace, so "Team A vs Team B" is split into team1="Team A" and
team2="Team" (not "Team B"); and the empty context string, which contains
neither separator, produces an empty team1 via the fallback. -/
theorem claimC4_counterexample :
    extractTeams "Team A vs Team B" ≠ ("Team A", "Team B") ∧
    (extractTeams "").1 = "" := by
  constructor
  · decide
  · decide

/-- C4 (amended): "Team A vs Team B" splits into team1="Team A",
team2="Team" (the second capture is cut at the first whitespace by the lazy
pattern), "Team A - Team B" yields the same split via the dash pattern, and
a normalized (whitespace-collapsed, trimmed) context string matching neither
pattern yields an empty team2 and a team1 which is non-empty exactly when
the normalized context is non-empty. -/
theorem claimC4_team_split (s : String)
    (h1 : vsSearch (contextNorm s).data = none)
    (h2 : dashSearch (contextNorm s).data = none) :
    extractTeams "Team A vs Team B" = ("Team A", "Team") ∧
    extractTeams "Team A - Team B" = ("Team A", "Team") ∧
    (extractTeams (contextNorm s)).2 = "" ∧
    ((extractTeams (contextNorm s)).1 = "" ↔ contextNorm s = "") := by
  refine ⟨by decide, by decide, ?_, ?_⟩
  · simp [extractTeams, h1, h2]
  · simp only [extractTeams, h1, h2]
    constructor
    · intro hempty
      by_contra hne
      have hdata : (contextNorm s).data = jsTrim (collapseWs s.data) := rfl
      rcases jsTrim_shape (collapseWs s.data) with hnil | ⟨d, t, heq, hws⟩
      · exact hne (stringDataExt _ _ (by rw [hdata, hnil]))
      · have hdz : (contextNorm s).data = d :: t := by rw [hdata, heq]
        have h3 : jsTrim ((joinSpace ((splitSpace (d :: t)).take 6)).take 20) = [] := by
          have h4 := congrArg String.data hempty
          rw [hdz] at h4
          exact h4
        exact fallback_team1_nonempty d t hws h3
    · intro hceq
      rw [hceq]
      decide

theorem claimC4_team_split_witness :
    extractTeams "Team A vs Team B" = ("Team A", "Team") ∧
    extractTeams "Team A - Team B" = ("Team A", "Team") ∧
    (extractTeams (contextNorm "FURIA")).2 = "" ∧
    ((extractTeams (contextNorm "FURIA")).1 = "" ↔ contextNorm "FURIA" = "") :=
  claimC4_team_split "FURIA" (by decide) (by decide)

/- ==================================================================
   Claim C9 — in-extraction deduplication by id, first occurrence wins.
   ================================================================== -/

theorem buildCandidate_id (a : Anchor) (i : String) : (buildCandidate a i).id = i := rfl

theorem anyId_eq_listHas (found : List MatchCand) (i : String) :
    found.any (fun m => decide (m.id = i)) = listHas (found.map (fun m => m.id)) i := by
  induction found with
  | nil => rfl
  | cons c cs ih => simp [listHas, List.any_cons, ih]

theorem dedupByIdGo_congr : ∀ (l : List MatchCand) (s1 s2 : List String),
    (∀ x, x ∈ s1 ↔ x ∈ s2) → dedupByIdGo s1 l = dedupByIdGo s2 l
  | [], _, _, _ => rfl
  | c :: cs, s1, s2, h => by
    by_cases hc : c.id ∈ s1
    · have h1 : listHas s1 c.id = true := (listHas_iff s1 c.id).mpr hc
      have h2 : listHas s2 c.id = true := (listHas_iff s2 c.id).mpr ((h c.id).mp hc)
      simp [dedupByIdGo, h1, h2, dedupByIdGo_congr cs s1 s2 h]
    · have h1 : listHas s1 c.id = false := (listHas_false_iff s1 c.id).mpr hc
      have h2 : listHas s2 c.id = false :=
        (listHas_false_iff s2 c.id).mpr (fun hx => hc ((h c.id).mpr hx))
      have hcongr : dedupByIdGo (c.id :: s1) cs = dedupByIdGo (c.id :: s2) cs := by
        refine dedupByIdGo_congr cs _ _ (fun x => ?_)
        simp only [List.mem_cons]
        exact or_congr Iff.rfl (h x)
      simp [dedupByIdGo, h1, h2, hcongr]

theorem extractGo_spec : ∀ (as : List Anchor) (found : List MatchCand),
    extractGo found as =
      found ++ dedupByIdGo (found.map (fun m => m.id))
        (as.filterMap (fun a => (anchorId a).map (fun i => buildCandidate a i)))
  | [], found => by simp [extractGo, dedupByIdGo]
  | a :: as, found => by
    cases hid : anchorId a with
    | none => simp [extractGo, hid, List.filterMap_cons, extractGo_spec as found]
    | some i =>
      by_cases hmem : found.any (fun m => decide (m.id = i)) = true
      · have hl : listHas (found.map (fun m => m.id)) i = true := by
          rw [← anyId_eq_listHas]; exact hmem
        rw [extractGo, hid]
        simp only [hmem, if_true, List.filterMap_cons, hid, Option.map_some]
        rw [extractGo_spec as found]
        simp [dedupByIdGo, buildCandidate_id, hl]
      · have hmemf : found.any (fun m => decide (m.id = i)) = false :=
          Bool.eq_false_iff.mpr hmem
        have hl : listHas (found.map (fun m => m.id)) i = false := by
          rw [← anyId_eq_listHas]; exact hmemf
        rw [extractGo, hid]
        simp only [hmemf, Bool.false_eq_true, if_false, List.filterMap_cons, hid,
          Option.map_some]
        rw [extractGo_spec as (found ++ [buildCandidate a i])]
        simp only [dedupByIdGo, buildCandidate_id, hl, Bool.false_eq_true, if_false,
          List.map_append, List.map_cons, List.map_nil]
        rw [List.append_assoc, List.singleton_append]
        congr 1
        congr 1
        refine dedupByIdGo_congr _ _ _ (fun x => ?_)
        simp only [List.mem_append, List.mem_cons, List.mem_singleton,
          List.not_mem_nil, or_false]
        constructor
        · rintro (h | h)
          · exact Or.inr h
          · exact Or.inl h
        · rintro (h | h)
          · exact Or.inr h
          · exact Or.inl h

theorem dedupByIdGo_nodup : ∀ (l : List MatchCand) (seen : List String),
    ((dedupByIdGo seen l).map (fun m => m.id)).Nodup ∧
    ∀ c ∈ dedupByIdGo seen l, c.id ∉ seen
  | [], seen => ⟨List.nodup_nil, by simp [dedupByIdGo]⟩
  | c :: cs, seen => by
    by_cases h : listHas seen c.id = true
    · simpa [dedupByIdGo, h] using dedupByIdGo_nodup cs seen
    · have hf : listHas seen c.id = false := Bool.eq_false_iff.mpr h
      rcases dedupByIdGo_nodup cs (c.id :: seen) with ⟨hn, hnotin⟩
      constructor
      · simp only [dedupByIdGo, hf, Bool.false_eq_true, if_false, List.map_cons]
        rw [List.nodup_cons]
        constructor
        · intro hmem
          rcases List.mem_map.mp hmem with ⟨c2, hc2, hideq⟩
          exact hnotin c2 hc2 (hideq ▸ List.mem_cons_self _ _)
        · exact hn
      · intro c2 hc2
        have hc2m : c2 = c ∨ c2 ∈ dedupByIdGo (c.id :: seen) cs := by
          simpa [dedupByIdGo, hf] using hc2
        rcases hc2m with rfl | h2
        · exact (listHas_false_iff seen c2.id).mp hf
        · intro hs
          exact hnotin c2 h2 (List.mem_cons_of_mem _ hs)

/-- C9: within one extraction call the candidate list is deduplicated by
source id — the result equals building one candidate per id-bearing anchor
and keeping only the first occurrence of each id, and the returned ids are
pairwise distinct. -/
theorem claimC9_extract_dedup (anchors : List Anchor) :
    extractMatchesFromHtml anchors = extractFirstOccurrence anchors ∧
    ((extractMatchesFromHtml anchors).map (fun m => m.id)).Nodup := by
  constructor
  · rw [extractMatchesFromHtml, extractFirstOccurrence, extractGo_spec]
    rfl
  · rw [extractMatchesFromHtml, extractGo_spec]
    simpa using (dedupByIdGo_nodup
      (anchors.filterMap (fun a => (anchorId a).map (fun i => buildCandidate a i))) []).1

/- ==================================================================
   Index-variant machine lemmas.
   ================================================================== -/

theorem alistGet_set (l : List (String × List String)) (k : String) (v : List String)
    (k2 : String) :
    alistGet (alistSet l k v) k2 = if k2 = k then some v else alistGet l k2 := by
  induction l with
  | nil =>
    by_cases h : k2 = k
    · subst h; simp [alistSet, alistGet]
    · simp [alistSet, alistGet, h, Ne.symm h]
  | cons p rest ih =>
    obtain ⟨k3, v3⟩ := p
    by_cases h3 : k3 = k
    · subst h3
      by_cases h : k2 = k3
      · subst h; simp [alistSet, alistGet]
      · simp [alistSet, alistGet, h, Ne.symm h]
    · by_cases h : k2 = k3
      · subst h
        simp [alistSet, alistGet, h3]
      · simp [alistSet, alistGet, h3, h, Ne.symm h, ih]

theorem seenIds_commitSt (st : St) (teamKey id k2 : String) :
    seenIds (commitSt st teamKey id).mem k2 =
      if k2 = teamKey then seenIds st.mem teamKey ++ [id] else seenIds st.mem k2 := by
  simp only [commitSt, seenIds, alistGet_set]
  by_cases h : k2 = teamKey <;> simp [h]

theorem commitSt_disk_eq (st : St) (teamKey id : String) :
    (commitSt st teamKey id).disk = (commitSt st teamKey id).mem := rfl

theorem commitSt_subs (st : St) (teamKey id : String) :
    (commitSt st teamKey id).mem.subscriptions = st.mem.subscriptions := rfl

theorem ensureSeenEntry_seen (db : IndexDB) (teamKey k2 : String) :
    seenIds (ensureSeenEntry db teamKey) k2 = seenIds db k2 := by
  unfold ensureSeenEntry
  cases hg : alistGet db.seenMatches teamKey with
  | none =>
    show seenIds _ k2 = _
    simp only [seenIds, alistGet_set]
    by_cases h : k2 = teamKey
    · subst h; simp [hg]
    · simp [h]
  | some v => rfl

theorem ensureSeenEntry_subs (db : IndexDB) (teamKey : String) :
    (ensureSeenEntry db teamKey).subscriptions = db.subscriptions := by
  unfold ensureSeenEntry
  cases alistGet db.seenMatches teamKey <;> rfl

theorem notifyLoop_cons_seen (teamKey team : String) (d : String → Bool) (st : St)
    (m : MatchCand) (ms : List MatchCand)
    (h : listHas (seenIds st.mem teamKey) m.id = true) :
    notifyLoop teamKey team d st (m :: ms) = notifyLoop teamKey team d st ms := by
  simp [notifyLoop, h]

theorem notifyLoop_cons_new (teamKey team : String) (d : String → Bool) (st : St)
    (m : MatchCand) (ms : List MatchCand)
    (h : listHas (seenIds st.mem teamKey) m.id = false) :
    notifyLoop teamKey team d st (m :: ms) =
      ((notifyLoop teamKey team d (commitSt st teamKey m.id) ms).1,
       (Event.commit teamKey m.id ::
          attemptEvents team m.id d ((alistGet st.mem.subscriptions team).getD [])) ++
        (notifyLoop teamKey team d (commitSt st teamKey m.id) ms).2) := by
  simp [notifyLoop, h]

theorem notifyLoop_mem_subs (teamKey team : String) (d : String → Bool) :
    ∀ (ms : List MatchCand) (st : St),
      (notifyLoop teamKey team d st ms).1.mem.subscriptions = st.mem.subscriptions
  | [], _ => rfl
  | m :: ms, st => by
    by_cases h : listHas (seenIds st.mem teamKey) m.id = true
    · rw [notifyLoop_cons_seen teamKey team d st m ms h]
      exact notifyLoop_mem_subs teamKey team d ms st
    · rw [notifyLoop_cons_new teamKey team d st m ms (Bool.eq_false_iff.mpr h)]
      show (notifyLoop teamKey team d (commitSt st teamKey m.id) ms).1.mem.subscriptions = _
      rw [notifyLoop_mem_subs teamKey team d ms (commitSt st teamKey m.id)]
      rfl

theorem notifyLoop_seen_mono (teamKey team : String) (d : String → Bool) :
    ∀ (ms : List MatchCand) (st : St) (k2 x : String),
      x ∈ seenIds st.mem k2 → x ∈ seenIds (notifyLoop teamKey team d st ms).1.mem k2
  | [], _, _, _ => fun hx => hx
  | m :: ms, st, k2, x => by
    intro hx
    by_cases h : listHas (seenIds st.mem teamKey) m.id = true
    · rw [notifyLoop_cons_seen teamKey team d st m ms h]
      exact notifyLoop_seen_mono teamKey team d ms st k2 x hx
    · rw [notifyLoop_cons_new teamKey team d st m ms (Bool.eq_false_iff.mpr h)]
      show x ∈ seenIds (notifyLoop teamKey team d (commitSt st teamKey m.id) ms).1.mem k2
      apply notifyLoop_seen_mono teamKey team d ms _ k2 x
      rw [seenIds_commitSt]
      by_cases hk : k2 = teamKey
      · subst hk
        rw [if_pos rfl]
        exact List.mem_append_left _ hx
      · rwa [if_neg hk]

theorem notifyLoop_pair_mono (teamKey team : String) (d : String → Bool) :
    ∀ (ms : List MatchCand) (st : St) (k2 x : String),
      x ∈ seenIds st.mem k2 → x ∈ seenIds st.disk k2 →
      x ∈ seenIds (notifyLoop teamKey team d st ms).1.mem k2 ∧
      x ∈ seenIds (notifyLoop teamKey team d st ms).1.disk k2
  | [], _, _, _ => fun hm hd => ⟨hm, hd⟩
  | m :: ms, st, k2, x => by
    intro hm hd
    by_cases h : listHas (seenIds st.mem teamKey) m.id = true
    · rw [notifyLoop_cons_seen teamKey team d st m ms h]
      exact notifyLoop_pair_mono teamKey team d ms st k2 x hm hd
    · rw [notifyLoop_cons_new teamKey team d st m ms (Bool.eq_false_iff.mpr h)]
      show x ∈ seenIds (notifyLoop teamKey team d (commitSt st teamKey m.id) ms).1.mem k2 ∧
        x ∈ seenIds (notifyLoop teamKey team d (commitSt st teamKey m.id) ms).1.disk k2
      apply notifyLoop_pair_mono teamKey team d ms _ k2 x
      · rw [seenIds_commitSt]
        by_cases hk : k2 = teamKey
        · subst hk
          rw [if_pos rfl]
          exact List.mem_append_left _ hm
        · rwa [if_neg hk]
      · rw [commitSt_disk_eq, seenIds_commitSt]
        by_cases hk : k2 = teamKey
        · subst hk
          rw [if_pos rfl]
          exact List.mem_append_left _ hm
        · rwa [if_neg hk]

theorem attemptEvents_shape (team i : String) (d : String → Bool) :
    ∀ (ws : List String) (e : Event), e ∈ attemptEvents team i d ws →
      (∃ w, w ∈ ws ∧ e = Event.attempt team w i) ∨
      (∃ w, e = Event.logOk w) ∨ (∃ w, e = Event.logFail w)
  | [], e => by intro he; simp [attemptEvents] at he
  | w :: ws, e => by
    intro he
    simp only [attemptEvents, List.mem_cons] at he
    rcases he with rfl | he2
    · exact Or.inl ⟨w, List.mem_cons_self w ws, rfl⟩
    rcases he2 with rfl | he3
    · by_cases hd : d w
      · simp only [hd, if_true]
        exact Or.inr (Or.inl ⟨w, rfl⟩)
      · simp only [hd, if_false]
        exact Or.inr (Or.inr ⟨w, rfl⟩)
    · rcases attemptEvents_shape team i d ws e he3 with ⟨w2, hw2, rfl⟩ | h | h
      · exact Or.inl ⟨w2, List.mem_cons_of_mem w hw2, rfl⟩
      · exact Or.inr (Or.inl h)
      · exact Or.inr (Or.inr h)

theorem notifyLoop_commit_mem (teamKey team : String) (d : String → Bool) :
    ∀ (ms : List MatchCand) (st : St) (k2 i : String),
      Event.commit k2 i ∈ (notifyLoop teamKey team d st ms).2 →
      i ∈ seenIds (notifyLoop teamKey team d st ms).1.mem k2 ∧
      i ∈ seenIds (notifyLoop teamKey team d st ms).1.disk k2
  | [], st, k2, i => by
    intro he
    simp [notifyLoop] at he
  | m :: ms, st, k2, i => by
    intro he
    by_cases h : listHas (seenIds st.mem teamKey) m.id = true
    · rw [notifyLoop_cons_seen teamKey team d st m ms h] at he ⊢
      exact notifyLoop_commit_mem teamKey team d ms st k2 i he
    · rw [notifyLoop_cons_new teamKey team d st m ms (Bool.eq_false_iff.mpr h)] at he ⊢
      simp only [List.cons_append, List.mem_cons, List.mem_append] at he
      show i ∈ seenIds (notifyLoop teamKey team d (commitSt st teamKey m.id) ms).1.mem k2 ∧
        i ∈ seenIds (notifyLoop teamKey team d (commitSt st teamKey m.id) ms).1.disk k2
      rcases he with heq | he2 | he3
      · injection heq with hk hi
        rw [hk, hi]
        apply notifyLoop_pair_mono teamKey team d ms _ teamKey m.id
        · rw [seenIds_commitSt, if_pos rfl]
          exact List.mem_append_right _ (List.mem_singleton_self m.id)
        · rw [commitSt_disk_eq, seenIds_commitSt, if_pos rfl]
          exact List.mem_append_right _ (List.mem_singleton_self m.id)
      · rcases attemptEvents_shape team m.id d _ _ he2 with ⟨w, _, heq⟩ | ⟨w, heq⟩ | ⟨w, heq⟩ <;>
          exact absurd heq (by intro hh; exact Event.noConfusion hh)
      · exact notifyLoop_commit_mem teamKey team d ms _ k2 i he3

theorem notifyLoop_no_attempt_of_seen (teamKey team : String) (d : String → Bool) :
    ∀ (ms : List MatchCand) (st : St) (i : String), i ∈ seenIds st.mem teamKey →
      ∀ (t2 w : String), Event.attempt t2 w i ∉ (notifyLoop teamKey team d st ms).2
  | [], st, i => by
    intro _ t2 w he
    simp [notifyLoop] at he
  | m :: ms, st, i => by
    intro hi t2 w he
    by_cases h : listHas (seenIds st.mem teamKey) m.id = true
    · rw [notifyLoop_cons_seen teamKey team d st m ms h] at he
      exact notifyLoop_no_attempt_of_seen teamKey team d ms st i hi t2 w he
    · have hne : m.id ≠ i := by
        intro heq
        rw [heq] at h
        exact h ((listHas_iff _ _).mpr hi)
      rw [notifyLoop_cons_new teamKey team d st m ms (Bool.eq_false_iff.mpr h)] at he
      simp only [List.cons_append, List.mem_cons, List.mem_append] at he
      rcases he with heq | he2 | he3
      · exact Event.noConfusion heq
      · rcases attemptEvents_shape team m.id d _ _ he2 with ⟨w2, _, heq⟩ | ⟨w2, heq⟩ | ⟨w2, heq⟩
        · injection heq with h1 h2 h3
          exact hne h3.symm
        · exact Event.noConfusion heq
        · exact Event.noConfusion heq
      · apply notifyLoop_no_attempt_of_seen teamKey team d ms (commitSt st teamKey m.id) i _ t2 w he3
        rw [seenIds_commitSt, if_pos rfl]
        exact List.mem_append_left _ hi

theorem notify_mem_subs (st : St) (team : String) (f : Except String (List Anchor))
    (d : String → Bool) :
    (notifyNewMatchesForTeam st team f d).1.mem.subscriptions = st.mem.subscriptions := by
  unfold notifyNewMatchesForTeam
  rw [notifyLoop_mem_subs]
  exact ensureSeenEntry_subs _ _

theorem notify_seen_mono (st : St) (team : String) (f : Except String (List Anchor))
    (d : String → Bool) (k2 x : String) (hx : x ∈ seenIds st.mem k2) :
    x ∈ seenIds (notifyNewMatchesForTeam st team f d).1.mem k2 := by
  unfold notifyNewMatchesForTeam
  apply notifyLoop_seen_mono
  show x ∈ seenIds (ensureSeenEntry st.mem (normalizeTeamName team)) k2
  rw [ensureSeenEntry_seen]
  exact hx

theorem notify_pair_mono (st : St) (team : String) (f : Except String (List Anchor))
    (d : String → Bool) (k2 x : String) (hm : x ∈ seenIds st.mem k2)
    (hd : x ∈ seenIds st.disk k2) :
    x ∈ seenIds (notifyNewMatchesForTeam st team f d).1.mem k2 ∧
    x ∈ seenIds (notifyNewMatchesForTeam st team f d).1.disk k2 := by
  unfold notifyNewMatchesForTeam
  apply notifyLoop_pair_mono
  · show x ∈ seenIds (ensureSeenEntry st.mem (normalizeTeamName team)) k2
    rw [ensureSeenEntry_seen]
    exact hm
  · exact hd

theorem notify_commit_mem (st : St) (team : String) (f : Except String (List Anchor))
    (d : String → Bool) (k2 i : String)
    (he : Event.commit k2 i ∈ (notifyNewMatchesForTeam st team f d).2) :
    i ∈ seenIds (notifyNewMatchesForTeam st team f d).1.mem k2 ∧
    i ∈ seenIds (notifyNewMatchesForTeam st team f d).1.disk k2 := by
  unfold notifyNewMatchesForTeam at he ⊢
  exact notifyLoop_commit_mem _ _ _ _ _ _ _ he

theorem notify_no_attempt_of_seen (st : St) (team : String)
    (f : Except String (List Anchor)) (d : String → Bool) (i : String)
    (hi : i ∈ seenIds st.mem (normalizeTeamName team)) (t2 w : String) :
    Event.attempt t2 w i ∉ (notifyNewMatchesForTeam st team f d).2 := by
  unfold notifyNewMatchesForTeam
  apply notifyLoop_no_attempt_of_seen
  show i ∈ seenIds (ensureSeenEntry st.mem (normalizeTeamName team)) (normalizeTeamName team)
  rw [ensureSeenEntry_seen]
  exact hi

theorem pollAux_seen_mono (f : String → Except String (List Anchor)) (d : String → Bool) :
    ∀ (ts : List String) (st : St) (k2 x : String),
      x ∈ seenIds st.mem k2 → x ∈ seenIds (pollCycleAux f d st ts).1.mem k2
  | [], _, _, _ => fun hx => hx
  | t :: ts, st, k2, x => fun hx =>
    pollAux_seen_mono f d ts _ k2 x
      (notify_seen_mono st t (f t) d k2 x hx)

theorem pollAux_pair_mono (f : String → Except String (List Anchor)) (d : String → Bool) :
    ∀ (ts : List String) (st : St) (k2 x : String),
      x ∈ seenIds st.mem k2 → x ∈ seenIds st.disk k2 →
      x ∈ seenIds (pollCycleAux f d st ts).1.mem k2 ∧
      x ∈ seenIds (pollCycleAux f d st ts).1.disk k2
  | [], _, _, _ => fun hm hd => ⟨hm, hd⟩
  | t :: ts, st, k2, x => fun hm hd => by
    rcases notify_pair_mono st t (f t) d k2 x hm hd with ⟨hm2, hd2⟩
    exact pollAux_pair_mono f d ts _ k2 x hm2 hd2

theorem pollAux_commit_mem (f : String → Except String (List Anchor)) (d : String → Bool) :
    ∀ (ts : List String) (st : St) (k2 i : String),
      Event.commit k2 i ∈ (pollCycleAux f d st ts).2 →
      i ∈ seenIds (pollCycleAux f d st ts).1.mem k2 ∧
      i ∈ seenIds (pollCycleAux f d st ts).1.disk k2
  | [], st, k2, i => by
    intro he
    simp [pollCycleAux] at he
  | t :: ts, st, k2, i => by
    intro he
    have hsplit : Event.commit k2 i ∈ (notifyNewMatchesForTeam st t (f t) d).2 ∨
        Event.commit k2 i ∈
          (pollCycleAux f d (notifyNewMatchesForTeam st t (f t) d).1 ts).2 := by
      simpa [pollCycleAux, List.mem_append] using he
    show i ∈ seenIds (pollCycleAux f d (notifyNewMatchesForTeam st t (f t) d).1 ts).1.mem k2 ∧
      i ∈ seenIds (pollCycleAux f d (notifyNewMatchesForTeam st t (f t) d).1 ts).1.disk k2
    rcases hsplit with h1 | h2
    · rcases notify_commit_mem st t (f t) d k2 i h1 with ⟨hm, hd⟩
      exact pollAux_pair_mono f d ts _ k2 i hm hd
    · exact pollAux_commit_mem f d ts _ k2 i h2

theorem subscribeOp_seen (st : St) (team w k2 : String) :
    seenIds (subscribeOp st team w).mem k2 = seenIds st.mem k2 := by
  unfold subscribeOp
  by_cases hg : team = "" ∨ w = ""
  · rw [if_pos hg]
  · rw [if_neg hg]
    rfl

theorem subscribeOp_pair (st : St) (team w k2 x : String)
    (hm : x ∈ seenIds st.mem k2) (hd : x ∈ seenIds st.disk k2) :
    x ∈ seenIds (subscribeOp st team w).mem k2 ∧
    x ∈ seenIds (subscribeOp st team w).disk k2 := by
  unfold subscribeOp
  by_cases hg : team = "" ∨ w = ""
  · rw [if_pos hg]
    exact ⟨hm, hd⟩
  · rw [if_neg hg]
    exact ⟨hm, hm⟩

theorem unsubscribeOp_seen (st : St) (team w k2 : String) :
    seenIds (unsubscribeOp st team w).mem k2 = seenIds st.mem k2 := by
  unfold unsubscribeOp
  by_cases hg : team = "" ∨ w = ""
  · rw [if_pos hg]
  · rw [if_neg hg]
    rfl

theorem unsubscribeOp_pair (st : St) (team w k2 x : String)
    (hm : x ∈ seenIds st.mem k2) (hd : x ∈ seenIds st.disk k2) :
    x ∈ seenIds (unsubscribeOp st team w).mem k2 ∧
    x ∈ seenIds (unsubscribeOp st team w).disk k2 := by
  unfold unsubscribeOp
  by_cases hg : team = "" ∨ w = ""
  · rw [if_pos hg]
    exact ⟨hm, hd⟩
  · rw [if_neg hg]
    exact ⟨hm, hm⟩

theorem step_pair_mono (st : St) (op : Op) (k2 x : String)
    (hm : x ∈ seenIds st.mem k2) (hd : x ∈ seenIds st.disk k2) :
    x ∈ seenIds (stepOp st op).mem k2 ∧ x ∈ seenIds (stepOp st op).disk k2 := by
  cases op with
  | subscribe t w => exact subscribeOp_pair st t w k2 x hm hd
  | unsubscribe t w => exact unsubscribeOp_pair st t w k2 x hm hd
  | poll f d => exact pollAux_pair_mono f d _ st k2 x hm hd
  | reload => exact ⟨hd, hd⟩

theorem step_mem_mono (st : St) (op : Op) (k2 x : String) (hne : op ≠ Op.reload)
    (hx : x ∈ seenIds st.mem k2) : x ∈ seenIds (stepOp st op).mem k2 := by
  cases op with
  | subscribe t w => rw [show stepOp st (Op.subscribe t w) = subscribeOp st t w from rfl,
      subscribeOp_seen]; exact hx
  | unsubscribe t w => rw [show stepOp st (Op.unsubscribe t w) = unsubscribeOp st t w from rfl,
      unsubscribeOp_seen]; exact hx
  | poll f d => exact pollAux_seen_mono f d _ st k2 x hx
  | reload => exact absurd rfl hne

theorem runOps_pair_mono (k2 x : String) :
    ∀ (ops : List Op) (st : St),
      x ∈ seenIds st.mem k2 → x ∈ seenIds st.disk k2 →
      x ∈ seenIds (runOps st ops).mem k2 ∧ x ∈ seenIds (runOps st ops).disk k2
  | [], _ => fun hm hd => ⟨hm, hd⟩
  | op :: ops, st => fun hm hd => by
    rcases step_pair_mono st op k2 x hm hd with ⟨hm2, hd2⟩
    exact runOps_pair_mono k2 x ops (stepOp st op) hm2 hd2

theorem isNewCheck_false_of_mem (db : IndexDB) (k x : String) (hx : x ∈ seenIds db k) :
    isNewCheck db k x = false := by
  unfold isNewCheck
  rw [(listHas_iff _ _).mpr hx]
  rfl

/-- C3: the per-team seen set is append-only — no store operation other
than a process restart ever removes an id from the in-memory seen set —
and once a commit for (key, id) has been performed (by a poll cycle), the
id stays in the in-memory and persisted seen sets across any sequence of
later operations, including reloads of the persisted file, so the code's
isNew check (!seenMatches[teamKey].includes(id)) returns false from then
on. -/
theorem claimC3_seen_append_only (st : St) (op : Op) (key id : String) (ops : List Op)
    (op2 : Op) (st2 : St) (x k : String)
    (hc : Event.commit key id ∈ stepEvents st op)
    (hne : op2 ≠ Op.reload)
    (hx : x ∈ seenIds st2.mem k) :
    x ∈ seenIds (stepOp st2 op2).mem k ∧
    id ∈ seenIds (runOps (stepOp st op) ops).mem key ∧
    id ∈ seenIds (runOps (stepOp st op) ops).disk key ∧
    isNewCheck (runOps (stepOp st op) ops).mem key id = false := by
  refine ⟨step_mem_mono st2 op2 k x hne hx, ?_⟩
  have hpair : id ∈ seenIds (stepOp st op).mem key ∧ id ∈ seenIds (stepOp st op).disk key := by
    cases op with
    | subscribe t w => simp [stepEvents] at hc
    | unsubscribe t w => simp [stepEvents] at hc
    | reload => simp [stepEvents] at hc
    | poll f d =>
      exact pollAux_commit_mem f d _ st key id hc
  rcases runOps_pair_mono key id ops (stepOp st op) hpair.1 hpair.2 with ⟨hm, hd⟩
  exact ⟨hm, hd, isNewCheck_false_of_mem _ key id hm⟩

theorem claimC3_seen_append_only_witness :
    "12345" ∈ seenIds (stepOp stSeeded (Op.subscribe "paiN" "https://hook3")).mem "furia" ∧
    "12345" ∈ seenIds (runOps (stepOp stFuria (Op.poll fetchFuria deliverAll)) [Op.reload]).mem
      "furia" ∧
    "12345" ∈ seenIds (runOps (stepOp stFuria (Op.poll fetchFuria deliverAll)) [Op.reload]).disk
      "furia" ∧
    isNewCheck (runOps (stepOp stFuria (Op.poll fetchFuria deliverAll)) [Op.reload]).mem
      "furia" "12345" = false :=
  claimC3_seen_append_only stFuria (Op.poll fetchFuria deliverAll) "furia" "12345"
    [Op.reload] (Op.subscribe "paiN" "https://hook3") stSeeded "12345" "furia"
    (by decide) (fun h => Op.noConfusion h) (by decide)

/- ==================================================================
   Claim C1 — commit-versus-notify ordering.
   ================================================================== -/

theorem commitsSeen_append (xs ys : List Event) :
    ∀ acc, commitsSeen acc (xs ++ ys) = commitsSeen (commitsSeen acc xs) ys := by
  induction xs with
  | nil => intro acc; rfl
  | cons e es ih =>
    intro acc
    cases e with
    | commit k i => simp [commitsSeen, ih]
    | attempt t w i => simp [commitsSeen, ih]
    | logOk w => simp [commitsSeen, ih]
    | logFail w => simp [commitsSeen, ih]

theorem cbag_append (xs ys : List Event) :
    ∀ acc, commitBeforeAttemptGo acc (xs ++ ys) =
      (commitBeforeAttemptGo acc xs && commitBeforeAttemptGo (commitsSeen acc xs) ys) := by
  induction xs with
  | nil => intro acc; simp [commitBeforeAttemptGo, commitsSeen]
  | cons e es ih =>
    intro acc
    cases e with
    | commit k i => simp [commitBeforeAttemptGo, commitsSeen, ih]
    | attempt t w i => simp [commitBeforeAttemptGo, commitsSeen, ih, Bool.and_assoc]
    | logOk w => simp [commitBeforeAttemptGo, commitsSeen, ih]
    | logFail w => simp [commitBeforeAttemptGo, commitsSeen, ih]

theorem cbag_attemptEvents (team i : String) (d : String → Bool) :
    ∀ (ws : List String) (acc : List (String × String)),
      (normalizeTeamName team, i) ∈ acc →
      commitBeforeAttemptGo acc (attemptEvents team i d ws) = true ∧
      commitsSeen acc (attemptEvents team i d ws) = acc
  | [], acc, _ => ⟨rfl, rfl⟩
  | w :: ws, acc, hmem => by
    have hany : acc.any (fun p => decide (p = (normalizeTeamName team, i))) = true :=
      List.any_eq_true.mpr ⟨(normalizeTeamName team, i), hmem, by simp⟩
    rcases cbag_attemptEvents team i d ws acc hmem with ⟨h1, h2⟩
    cases hd : d w with
    | true =>
      constructor
      · simp [attemptEvents, commitBeforeAttemptGo, hd, hany, h1]
      · simp [attemptEvents, commitsSeen, hd, h2]
    | false =>
      constructor
      · simp [attemptEvents, commitBeforeAttemptGo, hd, hany, h1]
      · simp [attemptEvents, commitsSeen, hd, h2]

theorem cbag_notifyLoop (teamKey team : String) (d : String → Bool)
    (hk : teamKey = normalizeTeamName team) :
    ∀ (ms : List MatchCand) (st : St) (acc : List (String × String)),
      commitBeforeAttemptGo acc (notifyLoop teamKey team d st ms).2 = true
  | [], _, _ => rfl
  | m :: ms, st, acc => by
    by_cases h : listHas (seenIds st.mem teamKey) m.id = true
    · rw [notifyLoop_cons_seen teamKey team d st m ms h]
      exact cbag_notifyLoop teamKey team d hk ms st acc
    · rw [notifyLoop_cons_new teamKey team d st m ms (Bool.eq_false_iff.mpr h)]
      show commitBeforeAttemptGo acc
        ((Event.commit teamKey m.id ::
          attemptEvents team m.id d ((alistGet st.mem.subscriptions team).getD [])) ++
          (notifyLoop teamKey team d (commitSt st teamKey m.id) ms).2) = true
      rw [cbag_append]
      have hmem : (normalizeTeamName team, m.id) ∈ (teamKey, m.id) :: acc := by
        rw [hk]
        exact List.mem_cons_self _ _
      rcases cbag_attemptEvents team m.id d ((alistGet st.mem.subscriptions team).getD [])
        ((teamKey, m.id) :: acc) hmem with ⟨h1, h2⟩
      have hb : commitBeforeAttemptGo acc
          (Event.commit teamKey m.id ::
            attemptEvents team m.id d ((alistGet st.mem.subscriptions team).getD [])) = true := by
        simp only [commitBeforeAttemptGo]
        exact h1
      have hcs : commitsSeen acc
          (Event.commit teamKey m.id ::
            attemptEvents team m.id d ((alistGet st.mem.subscriptions team).getD [])) =
          (teamKey, m.id) :: acc := by
        simp only [commitsSeen]
        exact h2
      rw [hb, hcs, Bool.true_and]
      exact cbag_notifyLoop teamKey team d hk ms (commitSt st teamKey m.id)
        ((teamKey, m.id) :: acc)

theorem cbag_notify (st : St) (team : String) (f : Except String (List Anchor))
    (d : String → Bool) (acc : List (String × String)) :
    commitBeforeAttemptGo acc (notifyNewMatchesForTeam st team f d).2 = true := by
  unfold notifyNewMatchesForTeam
  exact cbag_notifyLoop (normalizeTeamName team) team d rfl _ _ acc

theorem cbag_pollAux (f : String → Except String (List Anchor)) (d : String → Bool) :
    ∀ (ts : List String) (st : St) (acc : List (String × String)),
      commitBeforeAttemptGo acc (pollCycleAux f d st ts).2 = true
  | [], _, _ => rfl
  | t :: ts, st, acc => by
    show commitBeforeAttemptGo acc
      ((notifyNewMatchesForTeam st t (f t) d).2 ++
        (pollCycleAux f d (notifyNewMatchesForTeam st t (f t) d).1 ts).2) = true
    rw [cbag_append, cbag_notify, Bool.true_and]
    exact cbag_pollAux f d ts _ _

/-- C1, counterexample: with one FURIA subscription, an empty seen set and
one upstream match, the poll cycle's trace is commit first, delivery
attempt second — the commit precedes the notification attempt, refuting
"the commit never precedes the notification attempts". -/
theorem claimC1_counterexample :
    (pollCycle fetchFuria deliverAll stFuria).2 =
      [Event.commit "furia" "12345", Event.attempt "FURIA" "https://hook1" "12345",
       Event.logOk "https://hook1"] ∧
    commitNeverPrecedesAttempt (pollCycle fetchFuria deliverAll stFuria).2 = false := by
  constructor
  · decide
  · decide

/-- C1 (amended): for every new candidate match, one poll cycle first
commits the match id to the dedup store (pushing it onto the seen list and
persisting it) and only then calls the Notifier for the subscriptions on
the team — in every poll trace, each delivery attempt is preceded by the
commit of its (team key, match id). -/
theorem claimC1_commit_first (st : St) (f : String → Except String (List Anchor))
    (d : String → Bool) :
    commitPrecedesAttempts (pollCycle f d st).2 = true := by
  unfold commitPrecedesAttempts pollCycle
  exact cbag_pollAux f d _ st []

/- ==================================================================
   Claim C7 — per-recipient failure isolation.
   ================================================================== -/

theorem isLogEvent_commit (k i : String) : isLogEvent (Event.commit k i) = false := rfl

theorem isLogEvent_attempt (t w i : String) : isLogEvent (Event.attempt t w i) = false := rfl

theorem isLogEvent_logOk (w : String) : isLogEvent (Event.logOk w) = true := rfl

theorem isLogEvent_logFail (w : String) : isLogEvent (Event.logFail w) = true := rfl

theorem attemptEvents_nonlog (team i : String) (d : String → Bool) :
    ∀ ws, (attemptEvents team i d ws).filter (fun e => !isLogEvent e) =
      ws.map (fun w => Event.attempt team w i)
  | [] => rfl
  | w :: ws => by
    cases hd : d w <;>
      simp [attemptEvents, List.filter_cons, hd, isLogEvent_attempt, isLogEvent_logOk,
        isLogEvent_logFail, attemptEvents_nonlog team i d ws]

theorem notifyLoop_deliver_st (teamKey team : String) (d1 d2 : String → Bool) :
    ∀ (ms : List MatchCand) (st : St),
      (notifyLoop teamKey team d1 st ms).1 = (notifyLoop teamKey team d2 st ms).1
  | [], _ => rfl
  | m :: ms, st => by
    by_cases h : listHas (seenIds st.mem teamKey) m.id = true
    · rw [notifyLoop_cons_seen teamKey team d1 st m ms h,
        notifyLoop_cons_seen teamKey team d2 st m ms h]
      exact notifyLoop_deliver_st teamKey team d1 d2 ms st
    · rw [notifyLoop_cons_new teamKey team d1 st m ms (Bool.eq_false_iff.mpr h),
        notifyLoop_cons_new teamKey team d2 st m ms (Bool.eq_false_iff.mpr h)]
      exact notifyLoop_deliver_st teamKey team d1 d2 ms (commitSt st teamKey m.id)

theorem notifyLoop_deliver_events (teamKey team : String) (d1 d2 : String → Bool) :
    ∀ (ms : List MatchCand) (st : St),
      (notifyLoop teamKey team d1 st ms).2.filter (fun e => !isLogEvent e) =
      (notifyLoop teamKey team d2 st ms).2.filter (fun e => !isLogEvent e)
  | [], _ => rfl
  | m :: ms, st => by
    by_cases h : listHas (seenIds st.mem teamKey) m.id = true
    · rw [notifyLoop_cons_seen teamKey team d1 st m ms h,
        notifyLoop_cons_seen teamKey team d2 st m ms h]
      exact notifyLoop_deliver_events teamKey team d1 d2 ms st
    · rw [notifyLoop_cons_new teamKey team d1 st m ms (Bool.eq_false_iff.mpr h),
        notifyLoop_cons_new teamKey team d2 st m ms (Bool.eq_false_iff.mpr h)]
      show ((Event.commit teamKey m.id :: attemptEvents team m.id d1 _) ++
          (notifyLoop teamKey team d1 (commitSt st teamKey m.id) ms).2).filter
          (fun e => !isLogEvent e) = _
      rw [List.filter_append, List.filter_append]
      congr 1
      · rw [List.filter_cons, List.filter_cons]
        simp only [isLogEvent_commit, Bool.not_false, if_true]
        rw [attemptEvents_nonlog, attemptEvents_nonlog]
      · exact notifyLoop_deliver_events teamKey team d1 d2 ms (commitSt st teamKey m.id)

theorem notify_deliver_st (st : St) (team : String) (f : Except String (List Anchor))
    (d1 d2 : String → Bool) :
    (notifyNewMatchesForTeam st team f d1).1 = (notifyNewMatchesForTeam st team f d2).1 := by
  unfold notifyNewMatchesForTeam
  exact notifyLoop_deliver_st _ team d1 d2 _ _

theorem notify_deliver_events (st : St) (team : String) (f : Except String (List Anchor))
    (d1 d2 : String → Bool) :
    (notifyNewMatchesForTeam st team f d1).2.filter (fun e => !isLogEvent e) =
    (notifyNewMatchesForTeam st team f d2).2.filter (fun e => !isLogEvent e) := by
  unfold notifyNewMatchesForTeam
  exact notifyLoop_deliver_events _ team d1 d2 _ _

theorem pollAux_deliver (f : String → Except String (List Anchor)) (d1 d2 : String → Bool) :
    ∀ (ts : List String) (st : St),
      (pollCycleAux f d1 st ts).1 = (pollCycleAux f d2 st ts).1 ∧
      (pollCycleAux f d1 st ts).2.filter (fun e => !isLogEvent e) =
        (pollCycleAux f d2 st ts).2.filter (fun e => !isLogEvent e)
  | [], _ => ⟨rfl, rfl⟩
  | t :: ts, st => by
    have hst := notify_deliver_st st t (f t) d1 d2
    rcases pollAux_deliver f d1 d2 ts (notifyNewMatchesForTeam st t (f t) d1).1 with ⟨h1, h2⟩
    constructor
    · show (pollCycleAux f d1 (notifyNewMatchesForTeam st t (f t) d1).1 ts).1 =
        (pollCycleAux f d2 (notifyNewMatchesForTeam st t (f t) d2).1 ts).1
      rw [← hst, h1]
    · show ((notifyNewMatchesForTeam st t (f t) d1).2 ++
          (pollCycleAux f d1 (notifyNewMatchesForTeam st t (f t) d1).1 ts).2).filter
          (fun e => !isLogEvent e) =
        ((notifyNewMatchesForTeam st t (f t) d2).2 ++
          (pollCycleAux f d2 (notifyNewMatchesForTeam st t (f t) d2).1 ts).2).filter
          (fun e => !isLogEvent e)
      rw [List.filter_append, List.filter_append, ← hst, h2,
        notify_deliver_events st t (f t) d1 d2]

/-- C7: a delivery failure for one recipient is logged and otherwise
swallowed — the final state (including the persisted dedup state) and the
non-log event trace (every commit and every delivery attempt, to siblings
and to later matches) of a poll cycle are exactly those of a cycle in which
every delivery succeeds; only the per-recipient log lines differ. -/
theorem claimC7_failure_isolated (st : St) (f : String → Except String (List Anchor))
    (d : String → Bool) :
    (pollCycle f d st).1 = (pollCycle f (fun _ => true) st).1 ∧
    (pollCycle f d st).2.filter (fun e => !isLogEvent e) =
      (pollCycle f (fun _ => true) st).2.filter (fun e => !isLogEvent e) := by
  unfold pollCycle
  exact pollAux_deliver f d (fun _ => true) _ st

/- ==================================================================
   Claim C10 — normalized seen key versus raw subscription key.
   ================================================================== -/

/-- C10: in the index variant the seen set is keyed by the normalized team
name while subscriptions are keyed by the raw team string: if t1 and t2
normalize to the same key, then after a cycle for t1 commits a match id,
a later cycle for t2 classifies that id as already seen and makes no
delivery attempt for it — t2's subscribers get zero deliveries for that
match even though subscriptions[t1] and subscriptions[t2] are separate
entries. -/
theorem claimC10_normalized_key_shadowing (st : St) (t1 t2 : String)
    (f1 f2 : Except String (List Anchor)) (d1 d2 : String → Bool) (id w : String)
    (hkey : normalizeTeamName t1 = normalizeTeamName t2)
    (hc : Event.commit (normalizeTeamName t1) id ∈ (notifyNewMatchesForTeam st t1 f1 d1).2) :
    Event.attempt t2 w id ∉
      (notifyNewMatchesForTeam (notifyNewMatchesForTeam st t1 f1 d1).1 t2 f2 d2).2 := by
  have hpair := notify_commit_mem st t1 f1 d1 _ id hc
  apply notify_no_attempt_of_seen
  rw [← hkey]
  exact hpair.1

theorem claimC10_normalized_key_shadowing_witness :
    Event.attempt "furia" "https://hook2" "12345" ∉
      (notifyNewMatchesForTeam
        (notifyNewMatchesForTeam stTwoSpellings "FURIA" (.ok [anchorFuria]) deliverAll).1
        "furia" (.ok [anchorFuria]) deliverAll).2 :=
  claimC10_normalized_key_shadowing stTwoSpellings "FURIA" "furia"
    (.ok [anchorFuria]) (.ok [anchorFuria]) deliverAll deliverAll "12345" "https://hook2"
    (by decide) (by decide)

/- ==================================================================
   Claim C8 — fetch failure isolation.
   ================================================================== -/

theorem DBEquiv_refl (m : IndexDB) : DBEquiv m m := ⟨rfl, fun _ => rfl⟩

theorem DBEquiv_symm (m1 m2 : IndexDB) (h : DBEquiv m1 m2) : DBEquiv m2 m1 :=
  ⟨h.1.symm, fun k => (h.2 k).symm⟩

theorem DBEquiv_trans (m1 m2 m3 : IndexDB) (h1 : DBEquiv m1 m2) (h2 : DBEquiv m2 m3) :
    DBEquiv m1 m3 :=
  ⟨h1.1.trans h2.1, fun k => (h1.2 k).trans (h2.2 k)⟩

theorem ensureSeenEntry_equiv (db : IndexDB) (k : String) :
    DBEquiv (ensureSeenEntry db k) db :=
  ⟨ensureSeenEntry_subs db k, fun k2 => ensureSeenEntry_seen db k k2⟩

theorem commit_mem_equiv (st1 st2 : St) (tk id : String) (h : DBEquiv st1.mem st2.mem) :
    DBEquiv (commitSt st1 tk id).mem (commitSt st2 tk id).mem := by
  constructor
  · rw [commitSt_subs, commitSt_subs]
    exact h.1
  · intro k2
    rw [seenIds_commitSt, seenIds_commitSt, h.2 tk, h.2 k2]

theorem notifyLoop_equiv (teamKey team : String) (d : String → Bool) :
    ∀ (ms : List MatchCand) (st1 st2 : St), DBEquiv st1.mem st2.mem →
      (notifyLoop teamKey team d st1 ms).2 = (notifyLoop teamKey team d st2 ms).2 ∧
      DBEquiv (notifyLoop teamKey team d st1 ms).1.mem (notifyLoop teamKey team d st2 ms).1.mem
  | [], _, _, h => ⟨rfl, h⟩
  | m :: ms, st1, st2, h => by
    by_cases hseen : listHas (seenIds st1.mem teamKey) m.id = true
    · have hseen2 : listHas (seenIds st2.mem teamKey) m.id = true := by
        rw [← h.2 teamKey]; exact hseen
      rw [notifyLoop_cons_seen teamKey team d st1 m ms hseen,
        notifyLoop_cons_seen teamKey team d st2 m ms hseen2]
      exact notifyLoop_equiv teamKey team d ms st1 st2 h
    · have hseenf : listHas (seenIds st1.mem teamKey) m.id = false :=
        Bool.eq_false_iff.mpr hseen
      have hseen2 : listHas (seenIds st2.mem teamKey) m.id = false := by
        rw [← h.2 teamKey]; exact hseenf
      rw [notifyLoop_cons_new teamKey team d st1 m ms hseenf,
        notifyLoop_cons_new teamKey team d st2 m ms hseen2]
      have hc := commit_mem_equiv st1 st2 teamKey m.id h
      rcases notifyLoop_equiv teamKey team d ms (commitSt st1 teamKey m.id)
        (commitSt st2 teamKey m.id) hc with ⟨he, hd2⟩
      constructor
      · show (Event.commit teamKey m.id ::
            attemptEvents team m.id d ((alistGet st1.mem.subscriptions team).getD [])) ++
            (notifyLoop teamKey team d (commitSt st1 teamKey m.id) ms).2 =
          (Event.commit teamKey m.id ::
            attemptEvents team m.id d ((alistGet st2.mem.subscriptions team).getD [])) ++
            (notifyLoop teamKey team d (commitSt st2 teamKey m.id) ms).2
        rw [h.1, he]
      · exact hd2

theorem notify_equiv (st1 st2 : St) (team : String) (f : Except String (List Anchor))
    (d : String → Bool) (h : DBEquiv st1.mem st2.mem) :
    (notifyNewMatchesForTeam st1 team f d).2 = (notifyNewMatchesForTeam st2 team f d).2 ∧
    DBEquiv (notifyNewMatchesForTeam st1 team f d).1.mem
      (notifyNewMatchesForTeam st2 team f d).1.mem := by
  unfold notifyNewMatchesForTeam
  apply notifyLoop_equiv
  show DBEquiv (ensureSeenEntry st1.mem (normalizeTeamName team))
    (ensureSeenEntry st2.mem (normalizeTeamName team))
  exact DBEquiv_trans _ _ _ (ensureSeenEntry_equiv st1.mem _)
    (DBEquiv_trans _ _ _ h (DBEquiv_symm _ _ (ensureSeenEntry_equiv st2.mem _)))

theorem pollAux_equiv (f : String → Except String (List Anchor)) (d : String → Bool) :
    ∀ (ts : List String) (st1 st2 : St), DBEquiv st1.mem st2.mem →
      (pollCycleAux f d st1 ts).2 = (pollCycleAux f d st2 ts).2 ∧
      DBEquiv (pollCycleAux f d st1 ts).1.mem (pollCycleAux f d st2 ts).1.mem
  | [], _, _, h => ⟨rfl, h⟩
  | t :: ts, st1, st2, h => by
    rcases notify_equiv st1 st2 t (f t) d h with ⟨he1, hm1⟩
    rcases pollAux_equiv f d ts (notifyNewMatchesForTeam st1 t (f t) d).1
      (notifyNewMatchesForTeam st2 t (f t) d).1 hm1 with ⟨he2, hm2⟩
    constructor
    · show (notifyNewMatchesForTeam st1 t (f t) d).2 ++
          (pollCycleAux f d (notifyNewMatchesForTeam st1 t (f t) d).1 ts).2 =
        (notifyNewMatchesForTeam st2 t (f t) d).2 ++
          (pollCycleAux f d (notifyNewMatchesForTeam st2 t (f t) d).1 ts).2
      rw [he1, he2]
    · exact hm2

theorem notify_error_events (st : St) (t e : String) (d : String → Bool) :
    (notifyNewMatchesForTeam st t (.error e) d).2 = [] := rfl

theorem notify_error_st (st : St) (t e : String) (d : String → Bool) :
    (notifyNewMatchesForTeam st t (.error e) d).1 =
      { mem := ensureSeenEntry st.mem (normalizeTeamName t), disk := st.disk } := rfl

theorem pollAux_skip_error (f : String → Except String (List Anchor)) (d : String → Bool)
    (t e : String) (hf : f t = .error e) :
    ∀ (ts1 : List String) (st : St) (ts2 : List String),
      (pollCycleAux f d st (ts1 ++ t :: ts2)).2 = (pollCycleAux f d st (ts1 ++ ts2)).2
  | [], st, ts2 => by
    show (notifyNewMatchesForTeam st t (f t) d).2 ++
        (pollCycleAux f d (notifyNewMatchesForTeam st t (f t) d).1 ts2).2 =
      (pollCycleAux f d st ts2).2
    rw [hf, notify_error_events st t e d, List.nil_append]
    apply (pollAux_equiv f d ts2 _ st _).1
    rw [notify_error_st]
    exact ensureSeenEntry_equiv st.mem (normalizeTeamName t)
  | t2 :: ts1, st, ts2 => by
    show (notifyNewMatchesForTeam st t2 (f t2) d).2 ++
        (pollCycleAux f d (notifyNewMatchesForTeam st t2 (f t2) d).1 (ts1 ++ t :: ts2)).2 =
      (notifyNewMatchesForTeam st t2 (f t2) d).2 ++
        (pollCycleAux f d (notifyNewMatchesForTeam st t2 (f t2) d).1 (ts1 ++ ts2)).2
    rw [pollAux_skip_error f d t e hf ts1 _ ts2]

/-- C8: when the upstream fetch for a team fails, that team's cycle ends
with no events (no notifications) and no change to any seen set or to the
persisted state, and the poll run produces exactly the events it would
produce without that team — other teams are unaffected; a fetched document
that yields zero candidates is a valid empty result, not an error. -/
theorem claimC8_fetch_error_isolated (st : St) (t err : String)
    (fetchOf : String → Except String (List Anchor)) (d : String → Bool)
    (ts1 ts2 : List String) (k team2 : String) (anchors2 : List Anchor)
    (hf : fetchOf t = .error err)
    (hempty : extractMatchesFromHtml anchors2 = []) :
    (notifyNewMatchesForTeam st t (fetchOf t) d).2 = [] ∧
    seenIds (notifyNewMatchesForTeam st t (fetchOf t) d).1.mem k = seenIds st.mem k ∧
    (notifyNewMatchesForTeam st t (fetchOf t) d).1.disk = st.disk ∧
    (pollCycleAux fetchOf d st (ts1 ++ t :: ts2)).2 =
      (pollCycleAux fetchOf d st (ts1 ++ ts2)).2 ∧
    getMatchesForTeam (.ok anchors2) team2 = [] := by
  refine ⟨?_, ?_, ?_, ?_, ?_⟩
  · rw [hf]
    exact notify_error_events st t err d
  · rw [hf, notify_error_st]
    exact ensureSeenEntry_seen st.mem (normalizeTeamName t) k
  · rw [hf, notify_error_st]
  · exact pollAux_skip_error fetchOf d t err hf ts1 st ts2
  · show (extractMatchesFromHtml anchors2).filter (fun m => matchesIndex m team2) = []
    rw [hempty]
    rfl

theorem claimC8_fetch_error_isolated_witness :
    (notifyNewMatchesForTeam stFuria "FURIA" (fetchDown "FURIA") deliverAll).2 = [] ∧
    seenIds (notifyNewMatchesForTeam stFuria "FURIA" (fetchDown "FURIA") deliverAll).1.mem
      "furia" = seenIds stFuria.mem "furia" ∧
    (notifyNewMatchesForTeam stFuria "FURIA" (fetchDown "FURIA") deliverAll).1.disk =
      stFuria.disk ∧
    (pollCycleAux fetchDown deliverAll stFuria (["paiN"] ++ "FURIA" :: ["Imperial"])).2 =
      (pollCycleAux fetchDown deliverAll stFuria (["paiN"] ++ ["Imperial"])).2 ∧
    getMatchesForTeam (.ok []) "FURIA" = [] :=
  claimC8_fetch_error_isolated stFuria "FURIA" "network error" fetchDown deliverAll
    ["paiN"] ["Imperial"] "furia" "FURIA" [] rfl rfl

/- ==================================================================
   Claim C6 — subscribe idempotency.
   ================================================================== -/

/-- C6, counterexample: in the api variant POST /subscribe pushes
unconditionally, so subscribing the already-stored ("FURIA", hook) pair a
second time leaves two stored copies of the pair, not one. -/
theorem claimC6_counterexample :
    ((apiDbSingle.subscriptions.map (fun s => (s.team, s.webhook))).countP
      (fun p => decide (p = ("FURIA", "https://hook1")))) = 1 ∧
    ((apiDbDup.subscriptions.map (fun s => (s.team, s.webhook))).countP
      (fun p => decide (p = ("FURIA", "https://hook1")))) = 2 ∧
    ¬ (((apiDbDup.subscriptions.map (fun s => (s.team, s.webhook))).countP
      (fun p => decide (p = ("FURIA", "https://hook1")))) = 1) := by
  refine ⟨by decide, by decide, by decide⟩

/-- C6 (amended): in the index variant, subscribing a (team, webhook) pair
that is already stored leaves the subscription store unchanged (so exactly
one copy remains stored); in the api variant, subscribe appends
unconditionally and a repeated subscribe stores a duplicate pair. -/
theorem claimC6_subscribe_idempotent (st : St) (team w : String)
    (h : w ∈ (alistGet st.mem.subscriptions team).getD []) :
    (subscribeOp st team w).mem.subscriptions = st.mem.subscriptions := by
  unfold subscribeOp
  by_cases hg : team = "" ∨ w = ""
  · rw [if_pos hg]
  · rw [if_neg hg]
    cases hget : alistGet st.mem.subscriptions team with
    | none =>
      rw [hget] at h
      exact absurd h (List.not_mem_nil w)
    | some l =>
      rw [hget] at h
      have hhas : listHas l w = true := (listHas_iff l w).mpr h
      simp only [hget, Option.getD_some, hhas, if_true]

theorem claimC6_subscribe_idempotent_witness :
    (subscribeOp stFuria "FURIA" "https://hook1").mem.subscriptions =
      stFuria.mem.subscriptions :=
  claimC6_subscribe_idempotent stFuria "FURIA" "https://hook1" (by decide)

/- ==================================================================
   Claim C2 — at-most-one delivery attempt per (recipient, team, id).
   ================================================================== -/

theorem apiSeenIds_commit (db : ApiDB) (tk id k2 : String) :
    apiSeenIds (apiCommit db tk id) k2 =
      if k2 = tk then apiSeenIds db tk ++ [id] else apiSeenIds db k2 := by
  simp only [apiCommit, apiSeenIds, alistGet_set]
  by_cases h : k2 = tk <;> simp [h]

theorem apiCommit_subs (db : ApiDB) (tk id : String) :
    (apiCommit db tk id).subscriptions = db.subscriptions := rfl

theorem apiEnsure_seen (db : ApiDB) (tk k2 : String) :
    apiSeenIds (apiEnsureSeenEntry db tk) k2 = apiSeenIds db k2 := by
  unfold apiEnsureSeenEntry
  cases hg : alistGet db.seenMatches tk with
  | none =>
    show apiSeenIds _ k2 = _
    simp only [apiSeenIds, alistGet_set]
    by_cases h : k2 = tk
    · subst h; simp [hg]
    · simp [h]
  | some v => rfl

theorem apiEnsure_subs (db : ApiDB) (tk : String) :
    (apiEnsureSeenEntry db tk).subscriptions = db.subscriptions := by
  unfold apiEnsureSeenEntry
  cases alistGet db.seenMatches tk <;> rfl

theorem apiPollLoop_cons_seen (tk t : String) (db : ApiDB) (m : ApiMatch)
    (ms : List ApiMatch) (h : listHas (apiSeenIds db tk) (toString m.mid) = true) :
    apiPollLoop tk t db (m :: ms) = apiPollLoop tk t db ms := by
  simp [apiPollLoop, h]

theorem apiPollLoop_cons_new (tk t : String) (db : ApiDB) (m : ApiMatch)
    (ms : List ApiMatch) (h : listHas (apiSeenIds db tk) (toString m.mid) = false) :
    apiPollLoop tk t db (m :: ms) =
      ((apiPollLoop tk t (apiCommit db tk (toString m.mid)) ms).1,
       (Event.commit tk (toString m.mid) ::
          (findSubscriptionsForTeam db t).map
            (fun s => Event.attempt s.team s.webhook (toString m.mid))) ++
        (apiPollLoop tk t (apiCommit db tk (toString m.mid)) ms).2) := by
  simp [apiPollLoop, h]

theorem apiPollLoop_subs (tk t : String) :
    ∀ (ms : List ApiMatch) (db : ApiDB),
      (apiPollLoop tk t db ms).1.subscriptions = db.subscriptions
  | [], _ => rfl
  | m :: ms, db => by
    by_cases h : listHas (apiSeenIds db tk) (toString m.mid) = true
    · rw [apiPollLoop_cons_seen tk t db m ms h]
      exact apiPollLoop_subs tk t ms db
    · rw [apiPollLoop_cons_new tk t db m ms (Bool.eq_false_iff.mpr h)]
      show (apiPollLoop tk t (apiCommit db tk (toString m.mid)) ms).1.subscriptions = _
      rw [apiPollLoop_subs tk t ms (apiCommit db tk (toString m.mid))]
      rfl

theorem apiPollLoop_seen_mono (tk t : String) :
    ∀ (ms : List ApiMatch) (db : ApiDB) (k2 x : String),
      x ∈ apiSeenIds db k2 → x ∈ apiSeenIds (apiPollLoop tk t db ms).1 k2
  | [], _, _, _ => fun hx => hx
  | m :: ms, db, k2, x => by
    intro hx
    by_cases h : listHas (apiSeenIds db tk) (toString m.mid) = true
    · rw [apiPollLoop_cons_seen tk t db m ms h]
      exact apiPollLoop_seen_mono tk t ms db k2 x hx
    · rw [apiPollLoop_cons_new tk t db m ms (Bool.eq_false_iff.mpr h)]
      show x ∈ apiSeenIds (apiPollLoop tk t (apiCommit db tk (toString m.mid)) ms).1 k2
      apply apiPollLoop_seen_mono tk t ms _ k2 x
      rw [apiSeenIds_commit]
      by_cases hk : k2 = tk
      · subst hk
        rw [if_pos rfl]
        exact List.mem_append_left _ hx
      · rwa [if_neg hk]

theorem pollTeam_subs (db : ApiDB) (t : String) (fetch : Except String (List ApiMatch)) :
    (pollTeam db t fetch).1.subscriptions = db.subscriptions := by
  unfold pollTeam
  rw [apiPollLoop_subs]
  exact apiEnsure_subs db _

theorem pollTeam_seen_mono (db : ApiDB) (t : String) (fetch : Except String (List ApiMatch))
    (k2 x : String) (hx : x ∈ apiSeenIds db k2) :
    x ∈ apiSeenIds (pollTeam db t fetch).1 k2 := by
  unfold pollTeam
  apply apiPollLoop_seen_mono
  rw [apiEnsure_seen]
  exact hx

theorem runTeams_subs (fetch : Except String (List ApiMatch)) :
    ∀ (ts : List String) (db : ApiDB),
      (runTeams db fetch ts).1.subscriptions = db.subscriptions
  | [], _ => rfl
  | t :: ts, db => by
    show (runTeams (pollTeam db t fetch).1 fetch ts).1.subscriptions = _
    rw [runTeams_subs fetch ts (pollTeam db t fetch).1, pollTeam_subs]

theorem runTeams_seen_mono (fetch : Except String (List ApiMatch)) :
    ∀ (ts : List String) (db : ApiDB) (k2 x : String),
      x ∈ apiSeenIds db k2 → x ∈ apiSeenIds (runTeams db fetch ts).1 k2
  | [], _, _, _ => fun hx => hx
  | t :: ts, db, k2, x => fun hx =>
    runTeams_seen_mono fetch ts _ k2 x (pollTeam_seen_mono db t fetch k2 x hx)

theorem count_attempt_map_ne (subs : List ApiSub) (team w id id2 : String) (hne : id2 ≠ id) :
    ((subs.map (fun s => Event.attempt s.team s.webhook id2)).countP
      (fun e => decide (e = Event.attempt team w id))) = 0 := by
  rw [List.countP_eq_zero]
  intro e he
  rcases List.mem_map.mp he with ⟨s, _, rfl⟩
  simp only [decide_eq_true_eq, Event.attempt.injEq]
  rintro ⟨-, -, h3⟩
  exact hne h3

theorem count_attempt_map_eq (subs : List ApiSub) (team w id : String) :
    ((subs.map (fun s => Event.attempt s.team s.webhook id)).countP
      (fun e => decide (e = Event.attempt team w id))) =
    subs.countP (fun s => decide (s.team = team ∧ s.webhook = w)) := by
  rw [List.countP_map]
  refine List.countP_congr (fun s _ => ?_)
  simp [Function.comp, Event.attempt.injEq]

theorem countP_filter_le (l : List ApiSub) (p q : ApiSub → Bool) :
    (l.filter q).countP p ≤ l.countP p := by
  induction l with
  | nil => simp
  | cons a t ih =>
    rw [List.filter_cons, List.countP_cons]
    by_cases hq : q a
    · rw [if_pos hq, List.countP_cons]
      by_cases hp : p a <;> simp [hp] <;> omega
    · rw [if_neg hq]
      by_cases hp : p a <;> simp [hp] <;> [omega; exact le_trans ih (Nat.le_refl _)]

theorem nodup_pair_count (subs : List ApiSub) (team w : String)
    (h : (subs.map (fun s => (s.team, s.webhook))).Nodup) :
    subs.countP (fun s => decide (s.team = team ∧ s.webhook = w)) ≤ 1 := by
  induction subs with
  | nil => simp
  | cons s rest ih =>
    rw [List.map_cons, List.nodup_cons] at h
    by_cases hp : s.team = team ∧ s.webhook = w
    · have hzero : rest.countP (fun s2 => decide (s2.team = team ∧ s2.webhook = w)) = 0 := by
        rw [List.countP_eq_zero]
        intro s2 hs2
        simp only [decide_eq_true_eq]
        rintro ⟨e1, e2⟩
        apply h.1
        rw [hp.1, hp.2]
        exact List.mem_map.mpr ⟨s2, hs2, by rw [e1, e2]⟩
      rw [List.countP_cons, hzero, if_pos (by simpa using hp)]
    · rw [List.countP_cons, if_neg (by simpa using hp), Nat.add_zero]
      exact ih h.2

theorem attemptCount_block (db : ApiDB) (t team w id id2 : String) (es : List Event) :
    attemptCount ((Event.commit (normalizeTeamName t) id2 ::
        (findSubscriptionsForTeam db t).map
          (fun s => Event.attempt s.team s.webhook id2)) ++ es) team w id =
      ((findSubscriptionsForTeam db t).map
        (fun s => Event.attempt s.team s.webhook id2)).countP
          (fun e => decide (e = Event.attempt team w id)) +
      attemptCount es team w id := by
  rw [List.cons_append]
  unfold attemptCount
  rw [List.countP_cons, List.countP_append]
  simp

theorem findSubs_norm (db : ApiDB) (t : String) :
    ∀ s ∈ findSubscriptionsForTeam db t, normalizeTeamName s.team = normalizeTeamName t := by
  intro s hs
  have h := List.mem_filter.mp hs
  simpa using h.2

theorem findSubs_count_le (db : ApiDB) (team w : String)
    (hnd : (db.subscriptions.map (fun s => (s.team, s.webhook))).Nodup) (t : String) :
    (findSubscriptionsForTeam db t).countP
      (fun s => decide (s.team = team ∧ s.webhook = w)) ≤ 1 := by
  unfold findSubscriptionsForTeam
  exact le_trans (countP_filter_le db.subscriptions _ _) (nodup_pair_count db.subscriptions team w hnd)

theorem findSubs_block_zero (db : ApiDB) (t team w id id2 : String)
    (hnt : normalizeTeamName team ≠ normalizeTeamName t) :
    ((findSubscriptionsForTeam db t).map
      (fun s => Event.attempt s.team s.webhook id2)).countP
        (fun e => decide (e = Event.attempt team w id)) = 0 := by
  rw [List.countP_eq_zero]
  intro e he
  rcases List.mem_map.mp he with ⟨s, hs, rfl⟩
  simp only [decide_eq_true_eq, Event.attempt.injEq]
  rintro ⟨h1, -, -⟩
  apply hnt
  rw [← h1]
  exact findSubs_norm db t s hs

theorem apiPollLoop_attempt_bound (team w id t : String) :
    ∀ (ms : List ApiMatch) (db : ApiDB),
      ((db.subscriptions.map (fun s => (s.team, s.webhook))).Nodup) →
      attemptCount (apiPollLoop (normalizeTeamName t) t db ms).2 team w id ≤ 1 ∧
      (id ∈ apiSeenIds db (normalizeTeamName t) →
        attemptCount (apiPollLoop (normalizeTeamName t) t db ms).2 team w id = 0) ∧
      (attemptCount (apiPollLoop (normalizeTeamName t) t db ms).2 team w id = 1 →
        id ∈ apiSeenIds (apiPollLoop (normalizeTeamName t) t db ms).1 (normalizeTeamName team)) ∧
      (normalizeTeamName team ≠ normalizeTeamName t →
        attemptCount (apiPollLoop (normalizeTeamName t) t db ms).2 team w id = 0)
  | [], db, _ => by
    refine ⟨?_, fun _ => rfl, ?_, fun _ => rfl⟩
    · show attemptCount [] team w id ≤ 1
      exact Nat.zero_le 1
    · intro h1
      have h0 : attemptCount (apiPollLoop (normalizeTeamName t) t db []).2 team w id = 0 := rfl
      rw [h0] at h1
      exact absurd h1 (by omega)
  | m :: ms, db, hnd => by
    by_cases hseen : listHas (apiSeenIds db (normalizeTeamName t)) (toString m.mid) = true
    · rw [apiPollLoop_cons_seen (normalizeTeamName t) t db m ms hseen]
      exact apiPollLoop_attempt_bound team w id t ms db hnd
    · have hseenf := Bool.eq_false_iff.mpr hseen
      have hnd1 : (((apiCommit db (normalizeTeamName t) (toString m.mid)).subscriptions).map
          (fun s => (s.team, s.webhook))).Nodup := hnd
      rcases apiPollLoop_attempt_bound team w id t ms
        (apiCommit db (normalizeTeamName t) (toString m.mid)) hnd1 with ⟨hA2, hA1, hA3, hA0⟩
      have hmemc : toString m.mid ∈
          apiSeenIds (apiCommit db (normalizeTeamName t) (toString m.mid))
            (normalizeTeamName t) := by
        rw [apiSeenIds_commit, if_pos rfl]
        exact List.mem_append_right _ (List.mem_singleton_self _)
      rw [apiPollLoop_cons_new (normalizeTeamName t) t db m ms hseenf]
      refine ⟨?_, ?_, ?_, ?_⟩
      · show attemptCount ((Event.commit (normalizeTeamName t) (toString m.mid) ::
            (findSubscriptionsForTeam db t).map
              (fun s => Event.attempt s.team s.webhook (toString m.mid))) ++
            (apiPollLoop (normalizeTeamName t) t
              (apiCommit db (normalizeTeamName t) (toString m.mid)) ms).2) team w id ≤ 1
        rw [attemptCount_block]
        by_cases hid : toString m.mid = id
        · have hR : attemptCount (apiPollLoop (normalizeTeamName t) t
              (apiCommit db (normalizeTeamName t) (toString m.mid)) ms).2 team w id = 0 :=
            hA1 (hid ▸ hmemc)
          rw [hR, Nat.add_zero, hid, count_attempt_map_eq]
          exact findSubs_count_le db team w hnd t
        · rw [count_attempt_map_ne _ _ _ _ _ hid, Nat.zero_add]
          exact hA2
      · intro hidseen
        show attemptCount ((Event.commit (normalizeTeamName t) (toString m.mid) ::
            (findSubscriptionsForTeam db t).map
              (fun s => Event.attempt s.team s.webhook (toString m.mid))) ++
            (apiPollLoop (normalizeTeamName t) t
              (apiCommit db (normalizeTeamName t) (toString m.mid)) ms).2) team w id = 0
        rw [attemptCount_block]
        have hne : toString m.mid ≠ id := by
          intro he
          exact (listHas_false_iff _ _).mp hseenf (by rwa [he])
        rw [count_attempt_map_ne _ _ _ _ _ hne, Nat.zero_add]
        apply hA1
        rw [apiSeenIds_commit, if_pos rfl]
        exact List.mem_append_left _ hidseen
      · intro htot
        show id ∈ apiSeenIds (apiPollLoop (normalizeTeamName t) t
            (apiCommit db (normalizeTeamName t) (toString m.mid)) ms).1
            (normalizeTeamName team)
        have htot2 : ((findSubscriptionsForTeam db t).map
              (fun s => Event.attempt s.team s.webhook (toString m.mid))).countP
                (fun e => decide (e = Event.attempt team w id)) +
            attemptCount (apiPollLoop (normalizeTeamName t) t
              (apiCommit db (normalizeTeamName t) (toString m.mid)) ms).2 team w id = 1 := by
          rw [← attemptCount_block db t team w id (toString m.mid)]
          exact htot
        by_cases hid : toString m.mid = id
        · have hR : attemptCount (apiPollLoop (normalizeTeamName t) t
              (apiCommit db (normalizeTeamName t) (toString m.mid)) ms).2 team w id = 0 :=
            hA1 (hid ▸ hmemc)
          rw [hR, Nat.add_zero] at htot2
          have hpos : 0 < ((findSubscriptionsForTeam db t).map
              (fun s => Event.attempt s.team s.webhook (toString m.mid))).countP
                (fun e => decide (e = Event.attempt team w id)) := by
            omega
          rcases List.countP_pos_iff.mp hpos with ⟨e, he, hpe⟩
          rcases List.mem_map.mp he with ⟨s, hs, rfl⟩
          have hinj := decide_eq_true_eq.mp hpe
          have hteam : s.team = team := congrArg (fun ev => match ev with
            | Event.attempt a _ _ => a
            | _ => "") hinj
          have hkeyeq : normalizeTeamName team = normalizeTeamName t := by
            rw [← hteam]
            exact findSubs_norm db t s hs
          rw [hkeyeq]
          apply apiPollLoop_seen_mono
          exact hid ▸ hmemc
        · have hB : ((findSubscriptionsForTeam db t).map
              (fun s => Event.attempt s.team s.webhook (toString m.mid))).countP
                (fun e => decide (e = Event.attempt team w id)) = 0 :=
            count_attempt_map_ne _ _ _ _ _ hid
          rw [hB, Nat.zero_add] at htot2
          exact hA3 htot2
      · intro hnt
        show attemptCount ((Event.commit (normalizeTeamName t) (toString m.mid) ::
            (findSubscriptionsForTeam db t).map
              (fun s => Event.attempt s.team s.webhook (toString m.mid))) ++
            (apiPollLoop (normalizeTeamName t) t
              (apiCommit db (normalizeTeamName t) (toString m.mid)) ms).2) team w id = 0
        rw [attemptCount_block, findSubs_block_zero db t team w id _ hnt, Nat.zero_add]
        exact hA0 hnt

theorem pollTeam_attempt_bound (team w id t : String) (db : ApiDB)
    (fetch : Except String (List ApiMatch))
    (hnd : (db.subscriptions.map (fun s => (s.team, s.webhook))).Nodup) :
    attemptCount (pollTeam db t fetch).2 team w id ≤ 1 ∧
    (id ∈ apiSeenIds db (normalizeTeamName t) →
      attemptCount (pollTeam db t fetch).2 team w id = 0) ∧
    (attemptCount (pollTeam db t fetch).2 team w id = 1 →
      id ∈ apiSeenIds (pollTeam db t fetch).1 (normalizeTeamName team)) ∧
    (normalizeTeamName team ≠ normalizeTeamName t →
      attemptCount (pollTeam db t fetch).2 team w id = 0) := by
  unfold pollTeam
  have hnd2 : (((apiEnsureSeenEntry db (normalizeTeamName t)).subscriptions).map
      (fun s => (s.team, s.webhook))).Nodup := by
    rw [apiEnsure_subs]
    exact hnd
  rcases apiPollLoop_attempt_bound team w id t (fetchUpcomingMatches fetch t)
    (apiEnsureSeenEntry db (normalizeTeamName t)) hnd2 with ⟨h1, h2, h3, h4⟩
  refine ⟨h1, ?_, h3, h4⟩
  intro hh
  apply h2
  rw [apiEnsure_seen]
  exact hh

theorem runTeams_attempt_bound (team w id : String) (fetch : Except String (List ApiMatch)) :
    ∀ (ts : List String) (db : ApiDB),
      ((db.subscriptions.map (fun s => (s.team, s.webhook))).Nodup) →
      attemptCount (runTeams db fetch ts).2 team w id ≤ 1 ∧
      (id ∈ apiSeenIds db (normalizeTeamName team) →
        attemptCount (runTeams db fetch ts).2 team w id = 0) ∧
      (attemptCount (runTeams db fetch ts).2 team w id = 1 →
        id ∈ apiSeenIds (runTeams db fetch ts).1 (normalizeTeamName team))
  | [], db, _ => by
    refine ⟨Nat.zero_le 1, fun _ => rfl, ?_⟩
    intro h1
    have h0 : attemptCount (runTeams db fetch []).2 team w id = 0 := rfl
    rw [h0] at h1
    exact absurd h1 (by omega)
  | t :: ts, db, hnd => by
    have hndp : (((pollTeam db t fetch).1.subscriptions).map
        (fun s => (s.team, s.webhook))).Nodup := by
      rw [pollTeam_subs]
      exact hnd
    rcases pollTeam_attempt_bound team w id t db fetch hnd with ⟨p2, p1, p3, p0⟩
    rcases runTeams_attempt_bound team w id fetch ts (pollTeam db t fetch).1 hndp
      with ⟨r2, r1, r3⟩
    have hsplit : attemptCount (runTeams db fetch (t :: ts)).2 team w id =
        attemptCount (pollTeam db t fetch).2 team w id +
        attemptCount (runTeams (pollTeam db t fetch).1 fetch ts).2 team w id := by
      show attemptCount ((pollTeam db t fetch).2 ++
        (runTeams (pollTeam db t fetch).1 fetch ts).2) team w id = _
      unfold attemptCount
      exact List.countP_append _ _ _
    have hfinal : (runTeams db fetch (t :: ts)).1 =
        (runTeams (pollTeam db t fetch).1 fetch ts).1 := rfl
    by_cases hnt : normalizeTeamName team = normalizeTeamName t
    · by_cases hse : id ∈ apiSeenIds db (normalizeTeamName team)
      · have hc1 : attemptCount (pollTeam db t fetch).2 team w id = 0 := p1 (hnt ▸ hse)
        have hmono : id ∈ apiSeenIds (pollTeam db t fetch).1 (normalizeTeamName team) :=
          pollTeam_seen_mono db t fetch _ id hse
        have hc2 : attemptCount (runTeams (pollTeam db t fetch).1 fetch ts).2 team w id = 0 :=
          r1 hmono
        refine ⟨?_, fun _ => ?_, ?_⟩
        · rw [hsplit, hc1, hc2]
          omega
        · rw [hsplit, hc1, hc2]
        · intro h1
          rw [hsplit, hc1, hc2] at h1
          exact absurd h1 (by omega)
      · refine ⟨?_, fun hse2 => absurd hse2 hse, ?_⟩
        · rw [hsplit]
          by_cases hc1 : attemptCount (pollTeam db t fetch).2 team w id = 1
          · have hc2 := r1 (p3 hc1)
            rw [hc1, hc2]
          · have hle := p2
            have hc10 : attemptCount (pollTeam db t fetch).2 team w id = 0 := by omega
            rw [hc10, Nat.zero_add]
            exact r2
        · intro h1
          rw [hfinal]
          rw [hsplit] at h1
          by_cases hc1 : attemptCount (pollTeam db t fetch).2 team w id = 1
          · exact runTeams_seen_mono fetch ts _ _ id (p3 hc1)
          · have hle := p2
            have hc10 : attemptCount (pollTeam db t fetch).2 team w id = 0 := by omega
            rw [hc10, Nat.zero_add] at h1
            exact r3 h1
    · have hc1 : attemptCount (pollTeam db t fetch).2 team w id = 0 := p0 hnt
      refine ⟨?_, ?_, ?_⟩
      · rw [hsplit, hc1, Nat.zero_add]
        exact r2
      · intro hse
        rw [hsplit, hc1, Nat.zero_add]
        exact r1 (pollTeam_seen_mono db t fetch _ id hse)
      · intro h1
        rw [hfinal]
        rw [hsplit, hc1, Nat.zero_add] at h1
        exact r3 h1

theorem runCycle_subs (db : ApiDB) (fetch : Except String (List ApiMatch)) :
    (runCycle db fetch).1.subscriptions = db.subscriptions := by
  unfold runCycle
  exact runTeams_subs fetch _ db

theorem runCycle_seen_mono (db : ApiDB) (fetch : Except String (List ApiMatch))
    (k2 x : String) (hx : x ∈ apiSeenIds db k2) :
    x ∈ apiSeenIds (runCycle db fetch).1 k2 := by
  unfold runCycle
  exact runTeams_seen_mono fetch _ db k2 x hx

theorem runCycles_seen_mono (fetch : Except String (List ApiMatch)) :
    ∀ (n : Nat) (db : ApiDB) (k2 x : String),
      x ∈ apiSeenIds db k2 → x ∈ apiSeenIds (runCycles db fetch n).1 k2
  | 0, _, _, _ => fun hx => hx
  | n + 1, db, k2, x => fun hx =>
    runCycles_seen_mono fetch n _ k2 x (runCycle_seen_mono db fetch k2 x hx)

theorem runCycles_attempt_bound (team w id : String) (fetch : Except String (List ApiMatch)) :
    ∀ (n : Nat) (db : ApiDB),
      ((db.subscriptions.map (fun s => (s.team, s.webhook))).Nodup) →
      attemptCount (runCycles db fetch n).2 team w id ≤ 1 ∧
      (id ∈ apiSeenIds db (normalizeTeamName team) →
        attemptCount (runCycles db fetch n).2 team w id = 0) ∧
      (attemptCount (runCycles db fetch n).2 team w id = 1 →
        id ∈ apiSeenIds (runCycles db fetch n).1 (normalizeTeamName team))
  | 0, db, _ => by
    refine ⟨Nat.zero_le 1, fun _ => rfl, ?_⟩
    intro h1
    have h0 : attemptCount (runCycles db fetch 0).2 team w id = 0 := rfl
    rw [h0] at h1
    exact absurd h1 (by omega)
  | n + 1, db, hnd => by
    have hndp : (((runCycle db fetch).1.subscriptions).map
        (fun s => (s.team, s.webhook))).Nodup := by
      rw [runCycle_subs]
      exact hnd
    rcases runTeams_attempt_bound team w id fetch
      (dedupStr [] (db.subscriptions.map (fun s => s.team))) db hnd with ⟨p2, p1, p3⟩
    rcases runCycles_attempt_bound team w id fetch n (runCycle db fetch).1 hndp
      with ⟨r2, r1, r3⟩
    have hsplit : attemptCount (runCycles db fetch (n + 1)).2 team w id =
        attemptCount (runCycle db fetch).2 team w id +
        attemptCount (runCycles (runCycle db fetch).1 fetch n).2 team w id := by
      show attemptCount ((runCycle db fetch).2 ++
        (runCycles (runCycle db fetch).1 fetch n).2) team w id = _
      unfold attemptCount
      exact List.countP_append _ _ _
    have hfinal : (runCycles db fetch (n + 1)).1 =
        (runCycles (runCycle db fetch).1 fetch n).1 := rfl
    have hcyc2 : attemptCount (runCycle db fetch).2 team w id =
        attemptCount (runTeams db fetch
          (dedupStr [] (db.subscriptions.map (fun s => s.team)))).2 team w id := rfl
    have hcyc1 : (runCycle db fetch).1 =
        (runTeams db fetch (dedupStr [] (db.subscriptions.map (fun s => s.team)))).1 := rfl
    by_cases hse : id ∈ apiSeenIds db (normalizeTeamName team)
    · have hc1 : attemptCount (runCycle db fetch).2 team w id = 0 := by
        rw [hcyc2]
        exact p1 hse
      have hc2 : attemptCount (runCycles (runCycle db fetch).1 fetch n).2 team w id = 0 :=
        r1 (runCycle_seen_mono db fetch _ id hse)
      refine ⟨?_, fun _ => ?_, ?_⟩
      · rw [hsplit, hc1, hc2]
        omega
      · rw [hsplit, hc1, hc2]
      · intro h1
        rw [hsplit, hc1, hc2] at h1
        exact absurd h1 (by omega)
    · refine ⟨?_, fun hse2 => absurd hse2 hse, ?_⟩
      · rw [hsplit]
        by_cases hc1 : attemptCount (runCycle db fetch).2 team w id = 1
        · have hmem : id ∈ apiSeenIds (runCycle db fetch).1 (normalizeTeamName team) := by
            rw [hcyc1]
            exact p3 (by rw [← hcyc2]; exact hc1)
          rw [hc1, r1 hmem]
        · have hle : attemptCount (runCycle db fetch).2 team w id ≤ 1 := by
            rw [hcyc2]
            exact p2
          have hc10 : attemptCount (runCycle db fetch).2 team w id = 0 := by omega
          rw [hc10, Nat.zero_add]
          exact r2
      · intro h1
        rw [hfinal]
        rw [hsplit] at h1
        by_cases hc1 : attemptCount (runCycle db fetch).2 team w id = 1
        · have hmem : id ∈ apiSeenIds (runCycle db fetch).1 (normalizeTeamName team) := by
            rw [hcyc1]
            exact p3 (by rw [← hcyc2]; exact hc1)
          exact runCycles_seen_mono fetch n _ _ id hmem
        · have hle : attemptCount (runCycle db fetch).2 team w id ≤ 1 := by
            rw [hcyc2]
            exact p2
          have hc10 : attemptCount (runCycle db fetch).2 team w id = 0 := by omega
          rw [hc10, Nat.zero_add] at h1
          exact r3 h1

/-- C2, counterexample: in the api variant two identical subscribe calls
store a duplicate ("FURIA", hook) pair, and a single poll cycle over one
new upstream match then makes two delivery attempts to that recipient for
the same (team, matchId) pair — more than one. -/
theorem claimC2_counterexample :
    ¬ (attemptCount (runCycles apiDbDup (.ok [apiMatchFuria]) 1).2
        "FURIA" "https://hook1" "7" ≤ 1) := by
  decide

/-- C2 (amended): provided the stored subscription list holds no duplicate
(team, recipient) pair, then across any number of consecutive poll cycles
over the same upstream content, with no persistence loss, at most one
delivery attempt is made to any recipient for any (team, matchId) pair. -/
theorem claimC2_at_most_once (db : ApiDB) (fetch : Except String (List ApiMatch))
    (n : Nat) (team w id : String)
    (hnd : (db.subscriptions.map (fun s => (s.team, s.webhook))).Nodup) :
    attemptCount (runCycles db fetch n).2 team w id ≤ 1 :=
  (runCycles_attempt_bound team w id fetch n db hnd).1

theorem claimC2_at_most_once_witness :
    attemptCount (runCycles apiDbSingle (.ok [apiMatchFuria]) 2).2
      "FURIA" "https://hook1" "7" ≤ 1 :=
  claimC2_at_most_once apiDbSingle (.ok [apiMatchFuria]) 2 "FURIA" "https://hook1" "7"
    (by decide)
